import Mathlib

/-!
# ReDefine: logger and configuration validation

A shallow embedding of `Tools/ReDefine/Source/ReDefine.cpp`:

* `StrLength`, `Print`, `ReDefine.DEBUG`, `ReDefine.WARNING`, `ReDefine.LOG` (the logger),
* `ReDefine.ProcessHeaders` (header loop followed by the validation of the
  variable, guessing, function and raw configuration),
* `ReDefine.ReadFile` (over a model of `std::ifstream`) and `ReDefine.ReadConfig`.

Conventions of the embedding.

* A `std::string` and a `const char*` are both a Lean `String`; every `Char`
  stands for one `char`.  Whatever reads a `const char*` (the `std::string`
  constructor, `%s`, the format of `vsnprintf`, `StrLength`) reads the characters in
  front of the first NUL: `c_str`.  `x.c_str()` hands over `x` to such a reader.
* `std::map<std::string, V>` is `StdMap V`: the list of its entries in
  iteration order, i.e. in strictly increasing key order.
* `unsigned int` is a `Nat` taken modulo `2 ^ 32` wherever it is computed or read.
* Output is explicit: the validation returns the list of logger calls it makes
  (`LogCall`), and `Print` returns the list of effects of one logger call
  (`Effect`).
* A loop that need not end takes the number of tests of its condition it may make and
  gives `none` when it is still running after them.
-/

namespace Fo1in2

/-! ## `std::map<std::string, V>` -/

/-- Strictly increasing keys: the iteration order of a `std::map`.  Keys are compared
as `std::string` compares them, character by character (lexicographically). -/
def KeysOrdered {V : Type} (l : List (String × V)) : Prop :=
  l.Pairwise (fun a b => a.1.data < b.1.data)

instance {V : Type} (l : List (String × V)) : Decidable (KeysOrdered l) := by
  unfold KeysOrdered; infer_instance

/-- A `std::map<std::string, V>`: its entries in iteration (key) order. -/
structure StdMap (V : Type) where
  entries : List (String × V)
  ordered : KeysOrdered entries

namespace StdMap

/-- The empty map (a default-constructed or cleared `std::map`). -/
def empty {V : Type} : StdMap V := ⟨[], List.Pairwise.nil⟩

/-- Lookup in an entry list (`std::map::find`). -/
def findEntries {V : Type} (k : String) : List (String × V) → Option V
  | [] => none
  | (k', v') :: rest => if k' = k then some v' else findEntries k rest

/-- `m.find(k)`: the mapped value, if the key is present. -/
def find {V : Type} (m : StdMap V) (k : String) : Option V := findEntries k m.entries

/-- `m.size()`. -/
def size {V : Type} (m : StdMap V) : Nat := m.entries.length

/-- Entry list after `m[k] = v`: the value of an existing key is overwritten, a new
key is inserted at its place in key order. -/
def assignEntries {V : Type} (k : String) (v : V) : List (String × V) → List (String × V)
  | [] => [(k, v)]
  | (k', v') :: rest =>
    if k.data < k'.data then (k, v) :: (k', v') :: rest
    else if k'.data < k.data then (k', v') :: assignEntries k v rest
    else (k', v) :: rest

/-- The map after `m[k] = v`. -/
def assign {V : Type} (m : StdMap V) (k : String) (v : V) : StdMap V :=
  ⟨assignEntries k v m.entries, by
    have keys : ∀ (l : List (String × V)) (x : String × V), x ∈ assignEntries k v l →
        x.1 = k ∨ ∃ y ∈ l, y.1 = x.1 := by
      intro l
      induction l with
      | nil =>
        intro x hx
        simp [assignEntries] at hx
        left; rw [hx]
      | cons a rest ih =>
        intro x hx
        obtain ⟨k', v'⟩ := a
        simp only [assignEntries] at hx
        split_ifs at hx with h1 h2
        · rcases List.mem_cons.1 hx with h | h
          · left; rw [h]
          · right; exact ⟨x, h, rfl⟩
        · rcases List.mem_cons.1 hx with h | h
          · right; exact ⟨(k', v'), List.mem_cons_self _ _, by rw [h]⟩
          · rcases ih x h with h' | ⟨y, hy, hy'⟩
            · left; exact h'
            · right; exact ⟨y, List.mem_cons_of_mem _ hy, hy'⟩
        · rcases List.mem_cons.1 hx with h | h
          · right; exact ⟨(k', v'), List.mem_cons_self _ _, by rw [h]⟩
          · right; exact ⟨x, List.mem_cons_of_mem _ h, rfl⟩
    have main : ∀ l : List (String × V), KeysOrdered l → KeysOrdered (assignEntries k v l) := by
      intro l
      induction l with
      | nil => intro _; simp [assignEntries, KeysOrdered]
      | cons a rest ih =>
        intro h
        obtain ⟨k', v'⟩ := a
        unfold KeysOrdered at h
        rw [List.pairwise_cons] at h
        simp only [assignEntries]
        split_ifs with h1 h2
        · unfold KeysOrdered
          rw [List.pairwise_cons]
          refine ⟨?_, List.pairwise_cons.2 h⟩
          intro b hb
          rcases List.mem_cons.1 hb with hb | hb
          · rw [hb]; exact h1
          · exact lt_trans h1 (h.1 b hb)
        · unfold KeysOrdered
          rw [List.pairwise_cons]
          refine ⟨?_, ih h.2⟩
          intro b hb
          rcases keys rest b hb with hb' | ⟨y, hy, hy'⟩
          · rw [hb']; exact h2
          · rw [← hy']; exact h.1 y hy
        · unfold KeysOrdered
          rw [List.pairwise_cons]
          exact ⟨h.1, h.2⟩
    exact main m.entries m.ordered⟩

/-- The value read by `m[k]`: the mapped value, or a default-constructed one when the
key is absent (which `operator[]` then inserts). -/
def get {V : Type} (m : StdMap V) (k : String) (dflt : V) : V :=
  (m.find k).getD dflt

end StdMap

/-! ## Logger -/

/-- `MAX_LOGTEXT`: size of the buffer the message is formatted into. -/
def MAX_LOGTEXT : Nat := 4096

/-- A `const char*` read as a C string: the characters in front of the first NUL. -/
def c_str (s : String) : String :=
  ⟨s.data.takeWhile (fun c => c != Char.ofNat 0)⟩

/-- Loop of `StrLength`: `while( *str ) str++;` counts up to the first NUL. -/
def StrLength.count : List Char → Nat
  | [] => 0
  | c :: rest => if c = Char.ofNat 0 then 0 else StrLength.count rest + 1

/-- `StrLength( str )`: number of characters in front of the terminating NUL, as `uint`. -/
def StrLength (str : String) : Nat :=
  StrLength.count str.data % 2 ^ 32

/-- An argument passed through the `...` of a logger call. -/
inductive FormatArg where
  | str (s : String)
  | uint (n : Nat)
  deriving DecidableEq

/-- Expansion of a `printf` format over its arguments, for the conversions used in
`ReDefine.cpp`: `%s` takes a C string, `%u` an `unsigned int`, `%%` is a percent sign.
The result is `none` when a conversion finds no argument of its kind (undefined
behaviour in C) or is one not listed here. -/
def formatted : List Char → List FormatArg → Option (List Char)
  | [], _ => some []
  | [c], _ => if c = '%' then none else some [c]
  | c :: d :: rest, args =>
    if c = '%' then
      if d = 's' then
        match args with
        | FormatArg.str s :: args' =>
          (formatted rest args').map (fun out => (c_str s).data ++ out)
        | _ => none
      else if d = 'u' then
        match args with
        | FormatArg.uint n :: args' =>
          (formatted rest args').map (fun out => (Nat.repr (n % 2 ^ 32)).data ++ out)
        | _ => none
      else if d = '%' then
        (formatted rest args).map (fun out => '%' :: out)
      else none
    else (formatted (d :: rest) args).map (fun out => c :: out)

/-- `std::vsnprintf( text, size, format, args )` followed by reading `text` as a C
string: the expansion, cut to at most `size - 1` characters. -/
def vsnprintf (size : Nat) (format : String) (args : List FormatArg) : Option String :=
  (formatted (c_str format).data args).map (fun out => ⟨out.take (size - 1)⟩)

/-- What one logger call does to the outside world. -/
inductive Effect where
  /-- Characters written to standard output by `std::printf`. -/
  | stdout (text : String)
  /-- Characters appended to the file named `file` through `flog`. -/
  | fileAppend (file : String) (text : String)
  deriving DecidableEq

/-- `ReDefine::SStatus::SCurrent`. -/
structure ReDefine.SStatus.SCurrent where
  File : String
  Line : String
  LineNumber : Nat

/-- `ReDefine::SStatus`. -/
structure ReDefine.SStatus where
  Current : ReDefine.SStatus.SCurrent

/-- `ReDefine::Header` (the member `Type` is written `Type_`). -/
structure ReDefine.Header where
  Filename : String
  Type_ : String
  Prefix : String
  Group : String

/-- The members of `ReDefine` that `ReDefine.cpp` reads or writes.  The types of the
configuration tables are not declared in `ReDefine.h`; they are taken from their use in
`ProcessHeaders`: `GenericOperatorsMap` is a map from a name to a map from operator name
to type name, `StringVectorMap` a map from a name to a vector of type names,
`VariablesGuessing` a vector of type names, and `Raw` a sequence of pairs in iteration
order. -/
structure ReDefine where
  Status : ReDefine.SStatus
  Headers : List ReDefine.Header
  VariablesOperators : StdMap (StdMap String)
  VariablesGuessing : List String
  FunctionsOperators : StdMap (StdMap String)
  FunctionsArguments : StdMap (List String)
  Raw : List (String × String)

/-- Which of the three logging members is called. -/
inductive Severity where
  | DEBUG
  | WARNING
  | LOG
  deriving DecidableEq

/-- One call of `DEBUG`, `WARNING` or `LOG`, with the arguments of the call. -/
structure LogCall where
  severity : Severity
  function : Option String
  format : String
  args : List FormatArg
  deriving DecidableEq

/-- What `ReDefine.cpp` uses and does not define: member functions of `ReDefine` whose
bodies are in other files, and whether a log file can be opened for appending.  They are
parameters of the embedding.  `IsDefineType`, `GetOperator` and the text functions read
the define registry and the operator table only, which the validation does not modify. -/
structure Env where
  IsDefineType : String → Bool
  GetOperator : String → String
  TextGetLower : String → String
  TextGetJoined : List String → String → String
  TextGetTrimmed : String → String
  ProcessHeader : String → ReDefine.Header → ReDefine → ReDefine × List LogCall
  flogOpens : String → Bool

/-- `ReDefine::SStatus::SCurrent::Clear`. -/
def ReDefine.SStatus.SCurrent.Clear (_ : ReDefine.SStatus.SCurrent) :
    ReDefine.SStatus.SCurrent :=
  { File := "", Line := "", LineNumber := 0 }

/-- `ReDefine::SStatus::Clear`. -/
def ReDefine.SStatus.Clear (s : ReDefine.SStatus) : ReDefine.SStatus :=
  { Current := s.Current.Clear }

/-- The location suffix of `Print`: `" : file<F>"` without a line number,
`" : fileline<F:L>"` with one. -/
def Print.location (current : ReDefine.SStatus.SCurrent) : String :=
  let full := " : file"
  let full := if current.LineNumber % 2 ^ 32 ≠ 0 then full ++ "line" else full
  let full := full ++ "<"
  let full := full ++ current.File
  let full :=
    if current.LineNumber % 2 ^ 32 ≠ 0 then
      full ++ ":" ++ Nat.repr (current.LineNumber % 2 ^ 32)
    else full
  full ++ ">"

/-- The static function `Print`.  `pfx` and `function` are `none` for a null pointer.
The result is `none` when formatting the message is undefined, `some []` when nothing is
emitted, and otherwise the write to standard output followed by the append to the log
file (when that file opens). -/
def Print (env : Env) (self : Option ReDefine) (pfx : Option String)
    (function : Option String) (format : String) (args : List FormatArg)
    (lineInfo : Bool) : Option (List Effect) :=
  let full := ""
  let log := "ReDefine"
  -- prefix is part of message and logfile name
  let full := match pfx with
    | some p => full ++ c_str p ++ " "
    | none => full
  let log := match pfx with
    | some p => log ++ "." ++ c_str p
    | none => log
  let log := log ++ ".log"
  -- add current function
  let full := match function with
    | some f => full ++ "(" ++ c_str f ++ ") "
    | none => full
  -- prepare text
  match vsnprintf MAX_LOGTEXT format args with
  | none => none
  | some text =>
    -- skip empty text
    if StrLength text = 0 then some []
    else
      let full := full ++ text
      -- append filename/line number, if available
      let full := match self with
        | some s =>
          if lineInfo = true ∧ s.Status.Current.File ≠ "" then
            full ++ Print.location s.Status.Current
          else full
        | none => full
      -- append currently processed line
      let full := match self with
        | some s =>
          if s.Status.Current.Line ≠ "" then
            full ++ " :: " ++ env.TextGetTrimmed s.Status.Current.Line
          else full
        | none => full
      -- show and save
      some (Effect.stdout (c_str full ++ "\n") ::
        (if env.flogOpens log = true then [Effect.fileAppend log (full ++ "\n")] else []))

/-- `ReDefine::DEBUG`. -/
def ReDefine.DEBUG (env : Env) (self : ReDefine) (function : Option String)
    (format : String) (args : List FormatArg) : Option (List Effect) :=
  Print env (some self) (some "DEBUG") function format args true

/-- `ReDefine::WARNING`: the `func` argument is not passed on. -/
def ReDefine.WARNING (env : Env) (self : ReDefine) (_func : Option String)
    (format : String) (args : List FormatArg) : Option (List Effect) :=
  Print env (some self) (some "WARNING") none format args true

/-- `ReDefine::LOG`. -/
def ReDefine.LOG (env : Env) (self : ReDefine) (format : String)
    (args : List FormatArg) : Option (List Effect) :=
  Print env (some self) none none format args false

/-- The effects of a recorded logger call in state `self`. -/
def ReDefine.emit (env : Env) (self : ReDefine) (call : LogCall) : Option (List Effect) :=
  match call.severity with
  | Severity.DEBUG => self.DEBUG env call.function call.format call.args
  | Severity.WARNING => self.WARNING env call.function call.format call.args
  | Severity.LOG => self.LOG env call.format call.args

/-! ## `ReDefine::ProcessHeaders` -/

/-- `__FUNCTION__` inside `ReDefine::ProcessHeaders`. -/
def ProcessHeaders.FUNCTION : String := "ProcessHeaders"

/-- Format of the WARNING of the variable loop. -/
def ProcessHeaders.unknownVariable : String :=
  "unknown define type<%s> : variable<%s> operatorName<%s>"

/-- Format of the LOG of the variable loop. -/
def ProcessHeaders.addedVariable : String := "Added variable %s ... %s %s %s"

/-- Format of the WARNING of the function loop. -/
def ProcessHeaders.unknownFunction : String :=
  "unknown define type<%s> : function<%s> operatorName<%s>"

/-- Format of the LOG of the function loop. -/
def ProcessHeaders.addedFunction : String := "Added function %s ... %s(...) %s %s"

/-- Format of the WARNING of the guessing loop (the call passes no argument for `%s`). -/
def ProcessHeaders.unknownGuessing : String := "unknown define type<%s> : variable guessing"

/-- Format of the LOG of the guessing list. -/
def ProcessHeaders.addedGuessing : String := "Added variable guessing ... %s"

/-- Format of the WARNING of the argument loop. -/
def ProcessHeaders.unknownArgument : String :=
  "unknown define type<%s> : function<%s> argument<%u>"

/-- Format of the LOG of the argument loop. -/
def ProcessHeaders.addedArguments : String := "Added function ... %s( %s )"

/-- Format of the LOG of the raw loop. -/
def ProcessHeaders.addedRaw : String := "Added raw ... %s"

/-- Body of the inner loop `for( const auto& opName : var.second )` of the variable
loop and of the function loop, which differ in the two formats only.  `acc` is
`validatedOperators` and the logger calls made so far. -/
def ProcessHeaders.validateOperator (env : Env) (unknown added : String) (var : String)
    (acc : StdMap (StdMap String) × List LogCall) (opName : String × String) :
    StdMap (StdMap String) × List LogCall :=
  if env.IsDefineType opName.2 = false then
    (acc.1, acc.2 ++ [{ severity := Severity.WARNING, function := some ProcessHeaders.FUNCTION,
                        format := unknown,
                        args := [FormatArg.str opName.2, FormatArg.str var,
                                 FormatArg.str opName.1] }])
  else
    (acc.1.assign var ((acc.1.get var StdMap.empty).assign opName.1 opName.2),
     acc.2 ++ [{ severity := Severity.LOG, function := none, format := added,
                 args := [FormatArg.str (env.TextGetLower opName.1),
                          FormatArg.str var,
                          FormatArg.str (env.GetOperator opName.1),
                          FormatArg.str opName.2] }])

/-- The loop `for( const auto& var : table )` over `VariablesOperators` or
`FunctionsOperators`, writing into `validatedOperators`. -/
def ProcessHeaders.validateOperators (env : Env) (unknown added : String)
    (table : StdMap (StdMap String)) (validatedOperators : StdMap (StdMap String)) :
    StdMap (StdMap String) × List LogCall :=
  table.entries.foldl
    (fun acc var =>
      var.2.entries.foldl (ProcessHeaders.validateOperator env unknown added var.1) acc)
    (validatedOperators, [])

/-- The loop `for( const auto& type : VariablesGuessing )`: `guessing` is the vector,
the list argument what is left to iterate.  The first unknown type logs a WARNING, clears
the vector and leaves the loop. -/
def ProcessHeaders.validateGuessing (env : Env) (guessing : List String) :
    List String → List String × List LogCall
  | [] => (guessing, [])
  | type :: rest =>
    if env.IsDefineType type = false then
      ([], [{ severity := Severity.WARNING, function := some ProcessHeaders.FUNCTION,
              format := ProcessHeaders.unknownGuessing, args := [] }])
    else ProcessHeaders.validateGuessing env guessing rest

/-- Body of the inner loop `for( const auto& type : func.second )`; `acc` is `valid`,
`argument` and the logger calls made so far. -/
def ProcessHeaders.validateArgument (env : Env) (func : String)
    (acc : Bool × Nat × List LogCall) (type : String) : Bool × Nat × List LogCall :=
  let argument := (acc.2.1 + 1) % 2 ^ 32
  if type ≠ "?" ∧ env.IsDefineType type = false then
    (false, argument,
     acc.2.2 ++ [{ severity := Severity.WARNING, function := some ProcessHeaders.FUNCTION,
                   format := ProcessHeaders.unknownArgument,
                   args := [FormatArg.str type, FormatArg.str func,
                            FormatArg.uint argument] }])
  else (acc.1, argument, acc.2.2)

/-- Body of the loop `for( const auto& func : FunctionsArguments )`; `acc` is
`validatedFunctions` and the logger calls made so far. -/
def ProcessHeaders.validateFunction (env : Env)
    (acc : StdMap (List String) × List LogCall) (func : String × List String) :
    StdMap (List String) × List LogCall :=
  let r := func.2.foldl (ProcessHeaders.validateArgument env func.1) (true, 0, acc.2)
  if r.1 = false then (acc.1, r.2.2)
  else
    (acc.1.assign func.1 func.2,
     r.2.2 ++ [{ severity := Severity.LOG, function := none,
                 format := ProcessHeaders.addedArguments,
                 args := [FormatArg.str func.1,
                          FormatArg.str (env.TextGetJoined func.2 ", ")] }])

/-- The part of `ReDefine::ProcessHeaders` after the header loop: validation of the
variable, guessing, function and raw configuration.  Returns the new state and the
logger calls in the order they are made. -/
def ReDefine.validate (env : Env) (self : ReDefine) : ReDefine × List LogCall :=
  let validatedOperators : StdMap (StdMap String) := StdMap.empty
  let validatedFunctions : StdMap (List String) := StdMap.empty
  -- validate variables configuration
  let variablesPass := ProcessHeaders.validateOperators env ProcessHeaders.unknownVariable
    ProcessHeaders.addedVariable self.VariablesOperators validatedOperators
  let validatedOperators := variablesPass.1
  let guessingPass :=
    ProcessHeaders.validateGuessing env self.VariablesGuessing self.VariablesGuessing
  let self := { self with VariablesGuessing := guessingPass.1 }
  let guessingLog : List LogCall :=
    if self.VariablesGuessing.length ≠ 0 then
      [{ severity := Severity.LOG, function := none, format := ProcessHeaders.addedGuessing,
         args := [FormatArg.str (env.TextGetJoined self.VariablesGuessing ", ")] }]
    else []
  -- keep valid settings only
  let self := { self with VariablesOperators := validatedOperators }
  let validatedOperators : StdMap (StdMap String) := StdMap.empty
  -- validate functions configuration
  let functionsPass := ProcessHeaders.validateOperators env ProcessHeaders.unknownFunction
    ProcessHeaders.addedFunction self.FunctionsOperators validatedOperators
  let validatedOperators := functionsPass.1
  let argumentsPass := self.FunctionsArguments.entries.foldl
    (ProcessHeaders.validateFunction env) (validatedFunctions, [])
  let validatedFunctions := argumentsPass.1
  -- keep valid settings only
  let self := { self with FunctionsOperators := validatedOperators,
                          FunctionsArguments := validatedFunctions }
  -- log raw replacement
  let rawLog : List LogCall := self.Raw.map (fun e =>
    { severity := Severity.LOG, function := none, format := ProcessHeaders.addedRaw,
      args := [FormatArg.str e.1] })
  (self, variablesPass.2 ++ guessingPass.2 ++ guessingLog ++ functionsPass.2 ++
    argumentsPass.2 ++ rawLog)

/-- `ReDefine::ProcessHeaders`: every header is processed, then the configuration is
validated. -/
def ReDefine.ProcessHeaders (env : Env) (self : ReDefine) (path : String) :
    ReDefine × List LogCall :=
  let headers := self.Headers.foldl
    (fun (acc : ReDefine × List LogCall) header =>
      let r := env.ProcessHeader path header acc.1
      (r.1, acc.2 ++ r.2))
    (self, [])
  let validated := headers.1.validate env
  (validated.1, headers.2 ++ validated.2)

/-! ## `ReDefine::ReadFile` -/

/-- An open `std::ifstream` in binary mode: the characters of the file, the characters
from the read position on, and the `eofbit` and `failbit` of the stream state.  Its
operations follow the C++ standard library (C++11), which `ReDefine.cpp` is written
against. -/
structure IfStream where
  content : List Char
  unread : List Char
  eofbit : Bool
  failbit : Bool

/-- `fstream.good()`. -/
def IfStream.good (s : IfStream) : Bool := !s.eofbit && !s.failbit

/-- `fstream.eof()`. -/
def IfStream.eof (s : IfStream) : Bool := s.eofbit

/-- `fstream.read( buffer, n )`, with the characters it stores.  A stream that is not good
only gets `failbit`; a read that meets the end of the file before `n` characters sets
`eofbit` and `failbit`. -/
def IfStream.read (s : IfStream) (n : Nat) : IfStream × List Char :=
  if s.good = true then
    if (s.unread.take n).length < n then
      ({ s with unread := s.unread.drop n, eofbit := true, failbit := true }, s.unread.take n)
    else ({ s with unread := s.unread.drop n }, s.unread.take n)
  else ({ s with failbit := true }, [])

/-- `fstream.seekg( 0, fstream.beg )`: `eofbit` is cleared first, and the read position
moves to the start unless the stream has failed. -/
def IfStream.seekg_beg (s : IfStream) : IfStream :=
  if s.failbit = true then { s with eofbit := false }
  else { s with eofbit := false, unread := s.content }

/-- The characters in front of the first LF, and what follows that LF (`none` when there
is no LF). -/
def IfStream.untilDelim : List Char → List Char × Option (List Char)
  | [] => ([], none)
  | c :: rest =>
    if c = Char.ofNat 10 then ([], some rest)
    else ((c :: (IfStream.untilDelim rest).1), (IfStream.untilDelim rest).2)

/-- `getline( fstream, line )`.  A stream that is not good only gets `failbit` and `line`
keeps its value.  Otherwise `line` receives the characters up to the next LF, which is
consumed; meeting the end of the file sets `eofbit`, and `failbit` too when no character
was extracted. -/
def IfStream.getline (s : IfStream) (line : String) : IfStream × String :=
  if s.good = true then
    match (IfStream.untilDelim s.unread).2 with
    | some rest => ({ s with unread := rest }, ⟨(IfStream.untilDelim s.unread).1⟩)
    | none =>
      ({ s with unread := [], eofbit := true,
                failbit := decide ((IfStream.untilDelim s.unread).1 = []) },
       ⟨(IfStream.untilDelim s.unread).1⟩)
  else ({ s with failbit := true }, line)

/-- `line.erase( std::remove( line.begin(), line.end(), c ), line.end() )`. -/
def ReadFile.erase (line : String) (c : Char) : String :=
  ⟨line.data.filter (fun x => x != c)⟩

/-- The loop `while( !fstream.eof() )` of `ReadFile`, run for at most `fuel` tests of its
condition: `none` when the loop is still running after them. -/
def ReadFile.loop : Nat → IfStream → String → List String → Option (List String)
  | 0, _, _, _ => none
  | fuel + 1, fstream, line, lines =>
    if fstream.eof = true then some lines
    else
      let r := fstream.getline line
      let line := ReadFile.erase (ReadFile.erase r.2 (Char.ofNat 13)) (Char.ofNat 10)
      ReadFile.loop fuel r.1 line (lines ++ [line])

/-- The buffer `bom` after `fstream.read( bom, sizeof(bom) )`: the characters read, the
others still zero. -/
def ReadFile.bom (read : List Char) : List Char :=
  (read ++ [Char.ofNat 0, Char.ofNat 0, Char.ofNat 0]).take 3

/-- `ReDefine::ReadFile`.  `files` gives the characters of a file that can be opened and
`none` for one that cannot; `lines` is the vector passed in.  The result is the returned
value, the vector and the logger calls, or `none` when the call has not returned after
`fuel` tests of the loop condition. -/
def ReDefine.ReadFile (files : String → Option (List Char)) (fuel : Nat) (filename : String)
    (_lines : List String) : Option (Bool × List String × List LogCall) :=
  let lines : List String := []
  match files filename with
  | some content =>
    let fstream : IfStream :=
      { content := content, unread := content, eofbit := false, failbit := false }
    -- skip bom
    let r := fstream.read 3
    let bom := ReadFile.bom r.2
    let fstream :=
      if bom ≠ [Char.ofNat 0xEF, Char.ofNat 0xBB, Char.ofNat 0xBF] then r.1.seekg_beg
      else r.1
    match ReadFile.loop fuel fstream "" lines with
    | some lines => some (true, lines, [])
    | none => none
  | none =>
    some (false, lines,
      [{ severity := Severity.WARNING, function := none, format := "cannot read file<%s>",
         args := [FormatArg.str filename] }])

/-! ## `ReDefine::ReadConfig` -/

/-- The section readers, whose bodies are not in `ReDefine.cpp`: each takes the name of
its section and gives its result and the state it leaves. -/
structure ConfigReaders where
  ReadConfigDefines : String → ReDefine → Bool × ReDefine
  ReadConfigVariables : String → ReDefine → Bool × ReDefine
  ReadConfigFunctions : String → ReDefine → Bool × ReDefine
  ReadConfigRaw : String → ReDefine → Bool × ReDefine

/-- The four section readers. -/
inductive ConfigReader where
  | Defines
  | Variables
  | Functions
  | Raw
  deriving DecidableEq

/-- One invocation of a section reader: the reader, its argument and its result. -/
structure ReaderCall where
  reader : ConfigReader
  name : String
  result : Bool
  deriving DecidableEq

/-- The condition `!name.empty() && !Reader( name )` of `ReadConfig`, evaluated in state
`acc.1` after the invocations `acc.2`: its value, the state and the invocations. -/
def ReadConfig.failed (reader : String → ReDefine → Bool × ReDefine) (which : ConfigReader)
    (name : String) (acc : ReDefine × List ReaderCall) : Bool × ReDefine × List ReaderCall :=
  if name ≠ "" then
    (!(reader name acc.1).1, (reader name acc.1).2,
      acc.2 ++ [{ reader := which, name := name, result := (reader name acc.1).1 }])
  else (false, acc.1, acc.2)

/-- `ReDefine::ReadConfig`: the returned value, the state and the invocations of the
section readers in the order they are made. -/
def ReDefine.ReadConfig (readers : ConfigReaders) (self : ReDefine)
    (defines variablePrefix functionPrefix raw : String) : Bool × ReDefine × List ReaderCall :=
  let d := ReadConfig.failed readers.ReadConfigDefines ConfigReader.Defines defines (self, [])
  if d.1 = true then (false, d.2)
  else
    let v := ReadConfig.failed readers.ReadConfigVariables ConfigReader.Variables
      variablePrefix d.2
    if v.1 = true then (false, v.2)
    else
      let f := ReadConfig.failed readers.ReadConfigFunctions ConfigReader.Functions
        functionPrefix v.2
      if f.1 = true then (false, f.2)
      else
        let r := ReadConfig.failed readers.ReadConfigRaw ConfigReader.Raw raw f.2
        if r.1 = true then (false, r.2)
        else (true, r.2)

/-! ## Notions used to state the properties -/

/-- The table contains the triple `(name, operatorName, typeName)`. -/
def StdMap.HasTriple (m : StdMap (StdMap String)) (name operatorName typeName : String) :
    Prop :=
  (m.find name).bind (fun ops => ops.find operatorName) = some typeName

instance (m : StdMap (StdMap String)) (a b c : String) : Decidable (m.HasTriple a b c) := by
  unfold StdMap.HasTriple; infer_instance

/-- The entries of a two-level table with the inner maps as entry lists. -/
def StdMap.view {V : Type} (m : StdMap (StdMap V)) : List (String × List (String × V)) :=
  m.entries.map (fun e => (e.1, e.2.entries))

/-- The triples `(name, operatorName, typeName)` of a table in iteration order. -/
def StdMap.triples (m : StdMap (StdMap String)) : List (String × String × String) :=
  m.entries.flatMap (fun var => var.2.entries.map (fun opName => (var.1, opName.1, opName.2)))

/-- The entries of an operator map whose type is a known define type. -/
def ProcessHeaders.keptOperators (env : Env) (ops : List (String × String)) :
    List (String × String) :=
  ops.filter (fun e => env.IsDefineType e.2)

/-- A name with its operator entries, unless there is none. -/
def ProcessHeaders.group (k : String) (ops : List (String × String)) :
    List (String × List (String × String)) :=
  if ops = [] then [] else [(k, ops)]

/-- A name with the kept entries of its operator map, unless none is kept. -/
def ProcessHeaders.keptGroup (env : Env) (e : String × List (String × String)) :
    Option (String × List (String × String)) :=
  if ProcessHeaders.keptOperators env e.2 = [] then none
  else some (e.1, ProcessHeaders.keptOperators env e.2)

/-- The logger call that the operator loops make for one triple. -/
def ProcessHeaders.operatorCall (env : Env) (unknown added : String)
    (t : String × String × String) : LogCall :=
  if env.IsDefineType t.2.2 = false then
    { severity := Severity.WARNING, function := some ProcessHeaders.FUNCTION,
      format := unknown,
      args := [FormatArg.str t.2.2, FormatArg.str t.1,
               FormatArg.str t.2.1] }
  else
    { severity := Severity.LOG, function := none, format := added,
      args := [FormatArg.str (env.TextGetLower t.2.1), FormatArg.str t.1,
               FormatArg.str (env.GetOperator t.2.1), FormatArg.str t.2.2] }

/-- Every entry of an argument list is the wildcard or a known define type. -/
def ProcessHeaders.validArguments (env : Env) (types : List String) : Bool :=
  types.all (fun type => decide (type = "?") || env.IsDefineType type)

/-- The WARNING calls of a log that were made with the given format. -/
def ProcessHeaders.warnings (format : String) (log : List LogCall) : List LogCall :=
  log.filter (fun c => decide (c.severity = Severity.WARNING ∧ c.format = format))

/-- The LOG calls of a log that were made with the given format. -/
def ProcessHeaders.logs (format : String) (log : List LogCall) : List LogCall :=
  log.filter (fun c => decide (c.severity = Severity.LOG ∧ c.format = format))

/-- The logger calls of the guessing part of the validation: the loop over the list and
the LOG of the list that is left. -/
def ProcessHeaders.guessingCalls (env : Env) (guessing : List String) : List LogCall :=
  (ProcessHeaders.validateGuessing env guessing guessing).2 ++
    (if (ProcessHeaders.validateGuessing env guessing guessing).1.length ≠ 0 then
      [{ severity := Severity.LOG, function := none, format := ProcessHeaders.addedGuessing,
         args := [FormatArg.str (env.TextGetJoined
           (ProcessHeaders.validateGuessing env guessing guessing).1 ", ")] }]
    else [])

/-- The logger calls of the raw loop. -/
def ProcessHeaders.rawCalls (raw : List (String × String)) : List LogCall :=
  raw.map (fun e =>
    { severity := Severity.LOG, function := none, format := ProcessHeaders.addedRaw,
      args := [FormatArg.str e.1] })

/-- Name of the log file of a logger call: `ReDefine.<PREFIX>.log`, or `ReDefine.log`
without a prefix. -/
def Print.logName (pfx : Option String) : String :=
  match pfx with
  | some p => "ReDefine." ++ c_str p ++ ".log"
  | none => "ReDefine.log"

/-- The location part of a line: empty unless line information is requested and a
current file is set; then `" : file<F>"` when the line number is zero and
`" : fileline<F:L>"` otherwise. -/
def Print.locationPart (self : Option ReDefine) (lineInfo : Bool) : String :=
  match self with
  | some s =>
    if lineInfo = true ∧ s.Status.Current.File ≠ "" then
      if s.Status.Current.LineNumber % 2 ^ 32 = 0 then
        " : file<" ++ s.Status.Current.File ++ ">"
      else
        " : fileline<" ++ s.Status.Current.File ++ ":" ++
          Nat.repr (s.Status.Current.LineNumber % 2 ^ 32) ++ ">"
    else ""
  | none => ""

/-- The current-line part of a line: empty unless a current line is set; then `" :: "`
followed by the trimmed current line. -/
def Print.currentPart (env : Env) (self : Option ReDefine) : String :=
  match self with
  | some s =>
    if s.Status.Current.Line ≠ "" then " :: " ++ env.TextGetTrimmed s.Status.Current.Line
    else ""
  | none => ""

/-- The line of a logger call whose formatted message is `text`:
`[PREFIX ](FUNCTION )message`, the location part, the current-line part. -/
def Print.line (env : Env) (self : Option ReDefine) (pfx function : Option String)
    (text : String) (lineInfo : Bool) : String :=
  (match pfx with
    | some p => c_str p ++ " "
    | none => "") ++
  (match function with
    | some f => "(" ++ c_str f ++ ") "
    | none => "") ++
  text ++ Print.locationPart self lineInfo ++ Print.currentPart env self

/-- The entry of an argument list is neither the wildcard nor a known define type. -/
def ProcessHeaders.invalidArgument (env : Env) (type : String) : Bool :=
  decide (type ≠ "?") && !env.IsDefineType type

/-- The WARNING call of the argument loop for the entry `type` at position `position` of
the list of `func`; the position is an `unsigned int`. -/
def ProcessHeaders.argumentWarning (func : String) (position : Nat) (type : String) : LogCall :=
  { severity := Severity.WARNING, function := some ProcessHeaders.FUNCTION,
    format := ProcessHeaders.unknownArgument,
    args := [FormatArg.str type, FormatArg.str func, FormatArg.uint (position % 2 ^ 32)] }

/-- One WARNING call for each position, counted from `first`, whose entry is invalid. -/
def ProcessHeaders.argumentWarnings (env : Env) (func : String) (first : Nat)
    (types : List String) : List LogCall :=
  ((types.enumFrom first).filter (fun pt => ProcessHeaders.invalidArgument env pt.2)).map
    (fun pt => ProcessHeaders.argumentWarning func pt.1 pt.2)

/-- The LOG call of the argument loop for a function whose list is kept. -/
def ProcessHeaders.argumentsCall (env : Env) (func : String × List String) : LogCall :=
  { severity := Severity.LOG, function := none, format := ProcessHeaders.addedArguments,
    args := [FormatArg.str func.1, FormatArg.str (env.TextGetJoined func.2 ", ")] }

/-- The logger calls of the argument loop for one function: the WARNING calls of its
invalid positions, counted from 1, then its LOG call if no position is invalid. -/
def ProcessHeaders.functionCalls (env : Env) (func : String × List String) : List LogCall :=
  ProcessHeaders.argumentWarnings env func.1 1 func.2 ++
    (if ProcessHeaders.validArguments env func.2 = true then
      [ProcessHeaders.argumentsCall env func]
    else [])

/-- The LOG call that the operator loops make for an accepted triple. -/
def ProcessHeaders.addedCall (env : Env) (added : String) (t : String × String × String) :
    LogCall :=
  { severity := Severity.LOG, function := none, format := added,
    args := [FormatArg.str (env.TextGetLower t.2.1), FormatArg.str t.1,
             FormatArg.str (env.GetOperator t.2.1), FormatArg.str t.2.2] }

/-- A character sequence split at each LF (the LF characters are dropped; a sequence
without LF is one line, an LF at the end is followed by an empty line). -/
def ReadFile.splitLines : List Char → List (List Char)
  | [] => [[]]
  | c :: rest =>
    if c = Char.ofNat 10 then [] :: ReadFile.splitLines rest
    else (c :: (ReadFile.splitLines rest).headD []) :: (ReadFile.splitLines rest).tail

/-- The characters of a file after its byte-order mark `EF BB BF`, if it starts with
one; all its characters otherwise. -/
def ReadFile.afterBom (content : List Char) : List Char :=
  if content.take 3 = [Char.ofNat 0xEF, Char.ofNat 0xBB, Char.ofNat 0xBF] then content.drop 3
  else content

/-- The lines of a file: its characters after the byte-order mark, split at each LF, with
every CR removed. -/
def ReadFile.linesOf (content : List Char) : List String :=
  (ReadFile.splitLines (ReadFile.afterBom content)).map
    (fun l => String.mk (l.filter (fun x => x != Char.ofNat 13)))

/-- What `Print` does with a finished line: standard output receives the line up to a
NUL character and a line end, and the log file, when it opens, the line and a line end. -/
def Print.effects (env : Env) (log line : String) : List Effect :=
  Effect.stdout (c_str line ++ "\n") ::
    (if env.flogOpens log = true then [Effect.fileAppend log (line ++ "\n")] else [])

/-- The current-line suffix of a line in state `self`. -/
def Print.currentSuffix (env : Env) (self : ReDefine) : String :=
  if self.Status.Current.Line ≠ "" then " :: " ++ env.TextGetTrimmed self.Status.Current.Line
  else ""

/-- The function tag of a `DEBUG` line. -/
def Print.functionTag (function : Option String) : String :=
  match function with
  | some f => "(" ++ c_str f ++ ") "
  | none => ""

/-- The tests of `ReadConfig` as a loop over its sections (reader, which reader, section
name), left at the first test that holds. -/
def ReadConfig.run :
    List ((String → ReDefine → Bool × ReDefine) × ConfigReader × String) →
      ReDefine × List ReaderCall → Bool × ReDefine × List ReaderCall
  | [], acc => (true, acc)
  | step :: rest, acc =>
    if (ReadConfig.failed step.1 step.2.1 step.2.2 acc).1 = true then
      (false, (ReadConfig.failed step.1 step.2.1 step.2.2 acc).2)
    else ReadConfig.run rest (ReadConfig.failed step.1 step.2.1 step.2.2 acc).2

/-- The section reader that `which` names. -/
def ConfigReaders.get (readers : ConfigReaders) :
    ConfigReader → String → ReDefine → Bool × ReDefine
  | ConfigReader.Defines => readers.ReadConfigDefines
  | ConfigReader.Variables => readers.ReadConfigVariables
  | ConfigReader.Functions => readers.ReadConfigFunctions
  | ConfigReader.Raw => readers.ReadConfigRaw

/-- The invocations `calls` are runs of the section readers made one after the other
from state `self`: the result of each is what its reader returns for its name in the
state left by the ones before it, and `final` is the state left by the last. -/
def ReadConfig.Consulted (readers : ConfigReaders) :
    ReDefine → List ReaderCall → ReDefine → Prop
  | self, [], final => final = self
  | self, call :: rest, final =>
    call.result = (readers.get call.reader call.name self).1 ∧
      ReadConfig.Consulted readers (readers.get call.reader call.name self).2 rest final

/-- The readers with a non-empty section name, in the order of the sections. -/
def ReadConfig.named (sections : List (ConfigReader × String)) : List (ConfigReader × String) :=
  sections.filter (fun e => decide (e.2 ≠ ""))

/-! ## Helpers that are not in the sources, and sample inputs -/

/-- Modelled from the spec: the Define Registry, which `IsDefineType` reads.  It holds
the regular defines (a name mapped to its value-to-label variants, here the entries of
the inner map) and the virtual defines (a name mapped to its component names), the
members `RegularDefines` and `VirtualDefines` of `ReDefine.h`. -/
structure Registry where
  RegularDefines : StdMap (List (Int × String))
  VirtualDefines : StdMap (List String)

/-- Modelled from the spec: `IsDefineType`, whose body is not in the sources, is
`isKnownType` (section 4.2): true iff the name is a registered regular or virtual define,
the wildcard `?` being excluded from this check (it is valid only in function-argument
position, never as a variable, function or guess type). -/
def Spec.IsDefineType (reg : Registry) (type : String) : Bool :=
  type != "?" &&
    ((reg.RegularDefines.find type).isSome || (reg.VirtualDefines.find type).isSome)

/-- Modelled from the spec: `GetOperator`, whose body is not in the sources, is
`symbolOf`: the literal spelling the operator table gives to an operator name (the
empty string for a name the table does not have). -/
def Spec.GetOperator (operators : StdMap String) (opName : String) : String :=
  (operators.find opName).getD ""

/-- Modelled from the spec: `TextGetLower`, whose body is not in the sources, is
lowercasing. -/
def Spec.TextGetLower (text : String) : String :=
  ⟨text.data.map Char.toLower⟩

/-- Modelled from the spec: `TextGetJoined`, whose body is not in the sources, is joining
with a delimiter. -/
def Spec.TextGetJoined (text : List String) (delimiter : String) : String :=
  ⟨List.intercalate delimiter.data (text.map String.data)⟩

/-- Modelled from the spec: `TextGetTrimmed`, whose body is not in the sources, is
trimming: white space is removed at both ends. -/
def Spec.TextGetTrimmed (text : String) : String :=
  ⟨((text.data.dropWhile Char.isWhitespace).reverse.dropWhile Char.isWhitespace).reverse⟩

/-- Modelled from the spec: the helpers above over a registry and an operator table; a
header is taken to leave the configuration alone, and every log file opens. -/
def Spec.env (reg : Registry) (operators : StdMap String) : Env :=
  { IsDefineType := Spec.IsDefineType reg
    GetOperator := Spec.GetOperator operators
    TextGetLower := Spec.TextGetLower
    TextGetJoined := Spec.TextGetJoined
    TextGetTrimmed := Spec.TextGetTrimmed
    ProcessHeader := fun _ _ self => (self, [])
    flogOpens := fun _ => true }

/-- The line the logger is said to write (structured log, spec section 6):
`[PREFIX ](FUNCTION )message[ : file<F[:L]>][ :: trimmed-current-line]`, with
`" : file<F>"` without a line number and `" : file<F:L>"` with line number `L` whenever a
current file is set. -/
def Spec.line (env : Env) (current : ReDefine.SStatus.SCurrent) (pfx function : Option String)
    (message : String) : String :=
  (match pfx with
    | some p => p ++ " "
    | none => "") ++
  (match function with
    | some f => "(" ++ f ++ ") "
    | none => "") ++
  message ++
  (if current.File ≠ "" then
    if current.LineNumber = 0 then " : file<" ++ current.File ++ ">"
    else " : file<" ++ current.File ++ ":" ++ Nat.repr current.LineNumber ++ ">"
  else "") ++
  (if current.Line ≠ "" then " :: " ++ env.TextGetTrimmed current.Line else "")

/-- A state without configuration and with the given diagnostic status. -/
def Sample.state (file line : String) (lineNumber : Nat) : ReDefine :=
  { Status := { Current := { File := file, Line := line, LineNumber := lineNumber } }
    Headers := []
    VariablesOperators := StdMap.empty
    VariablesGuessing := []
    FunctionsOperators := StdMap.empty
    FunctionsArguments := StdMap.empty
    Raw := [] }

/-- A registry without defines. -/
def Sample.noDefines : Registry :=
  { RegularDefines := StdMap.empty, VirtualDefines := StdMap.empty }

/-- A registry in which a virtual define is named `?`. -/
def Sample.wildcardRegistry : Registry :=
  { RegularDefines := StdMap.empty
    VirtualDefines := StdMap.empty.assign "?" ["WEAPON_TYPE_KNIFE"] }

/-- A configuration that uses `?` as a variable type, as a function type, as a guess
type and as the type of both arguments of a function. -/
def Sample.wildcardConfig : ReDefine :=
  { Sample.state "" "" 0 with
    VariablesOperators := StdMap.empty.assign "damageType" (StdMap.empty.assign "EQUAL" "?")
    VariablesGuessing := ["?"]
    FunctionsOperators := StdMap.empty.assign "weapon_dmg_type" (StdMap.empty.assign "EQUAL" "?")
    FunctionsArguments := StdMap.empty.assign "critter_dmg" ["?", "?"] }

/-- The registry of the end-to-end example: the regular define `WEAPON_TYPE_KNIFE` with
variant `3`, and the virtual define `WeaponType` composed of it. -/
def Sample.weaponRegistry : Registry :=
  { RegularDefines := StdMap.empty.assign "WEAPON_TYPE_KNIFE" [(3, "WEAPON_TYPE_KNIFE")]
    VirtualDefines := StdMap.empty.assign "WeaponType" ["WEAPON_TYPE_KNIFE"] }

/-- An operator table in which `EQUAL` is spelled `==`. -/
def Sample.operators : StdMap String :=
  (StdMap.empty.assign "EQUAL" "==").assign "NOT_EQUAL" "!="

/-- The configuration of the end-to-end example: the variable rule
`(damageType, EQUAL, WeaponType)`. -/
def Sample.weaponConfig : ReDefine :=
  { Sample.state "" "" 0 with
    VariablesOperators :=
      StdMap.empty.assign "damageType" (StdMap.empty.assign "EQUAL" "WeaponType") }

/-- Section readers that leave the state alone: the reader of the variables fails, the
others succeed. -/
def Sample.readers : ConfigReaders :=
  { ReadConfigDefines := fun _ self => (true, self)
    ReadConfigVariables := fun _ self => (false, self)
    ReadConfigFunctions := fun _ self => (true, self)
    ReadConfigRaw := fun _ self => (true, self) }

/-- A file system with the empty file `empty.h`, the two-character file `short.h`, the
file `weapons.h` that starts with a byte-order mark and has a CR LF line end, and no other
file. -/
def Sample.files (filename : String) : Option (List Char) :=
  if filename = "empty.h" then some []
  else if filename = "short.h" then some "ab".data
  else if filename = "weapons.h" then
    some ([Char.ofNat 0xEF, Char.ofNat 0xBB, Char.ofNat 0xBF] ++
      "#define WEAPON_TYPE_KNIFE 3\r\n#define WEAPON_TYPE_CLUB 4".data)
  else none

theorem StdMap.ext_entries {V : Type} {a b : StdMap V} (h : a.entries = b.entries) : a = b := by
  cases a; cases b; cases h; rfl

theorem StdMap.assignEntries_below {V : Type} (k : String) (v : V) (l : List (String × V))
    (h : ∀ x ∈ l, x.1.data < k.data) : StdMap.assignEntries k v l = l ++ [(k, v)] := by
  induction l with
  | nil => rfl
  | cons a rest ih =>
    obtain ⟨k', v'⟩ := a
    have h1 : k'.data < k.data := h (k', v') (List.mem_cons_self _ _)
    have h2 : ¬ k.data < k'.data := not_lt_of_lt h1
    simp only [StdMap.assignEntries, if_neg h2, if_pos h1, List.cons_append]
    rw [ih (fun x hx => h x (List.mem_cons_of_mem _ hx))]

theorem StdMap.assignEntries_last {V : Type} (k : String) (v v0 : V) (l : List (String × V))
    (h : ∀ x ∈ l, x.1.data < k.data) :
    StdMap.assignEntries k v (l ++ [(k, v0)]) = l ++ [(k, v)] := by
  induction l with
  | nil => simp [StdMap.assignEntries]
  | cons a rest ih =>
    obtain ⟨k', v'⟩ := a
    have h1 : k'.data < k.data := h (k', v') (List.mem_cons_self _ _)
    have h2 : ¬ k.data < k'.data := not_lt_of_lt h1
    have ih' := ih (fun x hx => h x (List.mem_cons_of_mem _ hx))
    show StdMap.assignEntries k v ((k', v') :: (rest ++ [(k, v0)])) = (k', v') :: (rest ++ [(k, v)])
    simp only [StdMap.assignEntries, if_neg h2, if_pos h1]
    rw [ih']

theorem StdMap.findEntries_below {V : Type} (k : String) (l : List (String × V))
    (h : ∀ x ∈ l, x.1.data < k.data) : StdMap.findEntries k l = none := by
  induction l with
  | nil => rfl
  | cons a rest ih =>
    obtain ⟨k', v'⟩ := a
    have h1 : k'.data < k.data := h (k', v') (List.mem_cons_self _ _)
    have h2 : k' ≠ k := fun e => by rw [e] at h1; exact lt_irrefl _ h1
    simp only [StdMap.findEntries, if_neg h2]
    exact ih (fun x hx => h x (List.mem_cons_of_mem _ hx))

theorem StdMap.findEntries_last {V : Type} (k : String) (v0 : V) (l : List (String × V))
    (h : ∀ x ∈ l, x.1.data < k.data) :
    StdMap.findEntries k (l ++ [(k, v0)]) = some v0 := by
  induction l with
  | nil => simp [StdMap.findEntries]
  | cons a rest ih =>
    obtain ⟨k', v'⟩ := a
    have h1 : k'.data < k.data := h (k', v') (List.mem_cons_self _ _)
    have h2 : k' ≠ k := fun e => by rw [e] at h1; exact lt_irrefl _ h1
    show StdMap.findEntries k ((k', v') :: (rest ++ [(k, v0)])) = some v0
    simp only [StdMap.findEntries, if_neg h2]
    exact ih (fun x hx => h x (List.mem_cons_of_mem _ hx))

theorem StdMap.findEntries_eq_some_iff {V : Type} (k : String) (v : V) (l : List (String × V))
    (h : KeysOrdered l) : StdMap.findEntries k l = some v ↔ (k, v) ∈ l := by
  induction l with
  | nil => simp [StdMap.findEntries]
  | cons a rest ih =>
    obtain ⟨k', v'⟩ := a
    unfold KeysOrdered at h
    rw [List.pairwise_cons] at h
    by_cases hk : k' = k
    · subst hk
      simp only [StdMap.findEntries, if_true, Option.some.injEq, List.mem_cons, Prod.mk.injEq,
        true_and]
      constructor
      · intro e; left; exact e.symm
      · rintro (e | hm)
        · exact e.symm
        · exact absurd (h.1 _ hm) (lt_irrefl _)
    · simp only [StdMap.findEntries, if_neg hk, List.mem_cons, Prod.mk.injEq]
      rw [ih h.2]
      constructor
      · intro hm; right; exact hm
      · rintro (⟨e, _⟩ | hm)
        · exact absurd e.symm hk
        · exact hm

theorem StdMap.findEntries_map {V W : Type} (f : V → W) (k : String) (l : List (String × V)) :
    StdMap.findEntries k (l.map (fun e => (e.1, f e.2))) = (StdMap.findEntries k l).map f := by
  induction l with
  | nil => rfl
  | cons a rest ih =>
    obtain ⟨k', v'⟩ := a
    by_cases hk : k' = k
    · simp [StdMap.findEntries, hk]
    · simp only [List.map_cons, StdMap.findEntries, if_neg hk]
      exact ih

theorem StdMap.assignEntries_map {V W : Type} (f : V → W) (k : String) (v : V)
    (l : List (String × V)) :
    (StdMap.assignEntries k v l).map (fun e => (e.1, f e.2)) =
      StdMap.assignEntries k (f v) (l.map (fun e => (e.1, f e.2))) := by
  induction l with
  | nil => rfl
  | cons a rest ih =>
    obtain ⟨k', v'⟩ := a
    simp only [StdMap.assignEntries, List.map_cons]
    split_ifs with h1 h2
    · rfl
    · simp only [List.map_cons, ih]
    · rfl

theorem StdMap.hasTriple_iff (m : StdMap (StdMap String)) (a b c : String) :
    m.HasTriple a b c ↔ ∃ l, (a, l) ∈ m.view ∧ (b, c) ∈ l := by
  unfold StdMap.HasTriple StdMap.find StdMap.view
  constructor
  · intro h
    cases hf : StdMap.findEntries a m.entries with
    | none => rw [hf] at h; simp at h
    | some im =>
      rw [hf] at h
      simp only [Option.some_bind] at h
      refine ⟨im.entries, ?_, ?_⟩
      · rw [List.mem_map]
        exact ⟨(a, im), (StdMap.findEntries_eq_some_iff a im m.entries m.ordered).1 hf, rfl⟩
      · exact (StdMap.findEntries_eq_some_iff b c im.entries im.ordered).1 h
  · rintro ⟨l, hl, hbc⟩
    rw [List.mem_map] at hl
    obtain ⟨⟨a', im⟩, hmem, heq⟩ := hl
    simp only [Prod.mk.injEq] at heq
    obtain ⟨rfl, rfl⟩ := heq
    rw [(StdMap.findEntries_eq_some_iff a' im m.entries m.ordered).2 hmem]
    simp only [Option.some_bind]
    exact (StdMap.findEntries_eq_some_iff b c im.entries im.ordered).2 hbc

/-! ## The operator loops -/

theorem StdMap.view_assign (m : StdMap (StdMap String)) (k : String) (im : StdMap String) :
    (m.assign k im).view = StdMap.assignEntries k im.entries m.view := by
  unfold StdMap.view StdMap.assign
  exact StdMap.assignEntries_map (fun im => im.entries) k im m.entries

theorem StdMap.entries_get (m : StdMap (StdMap String)) (k : String) :
    (m.get k StdMap.empty).entries = (StdMap.findEntries k m.view).getD [] := by
  unfold StdMap.get StdMap.find StdMap.view
  rw [StdMap.findEntries_map (fun im => im.entries) k m.entries]
  cases StdMap.findEntries k m.entries <;> rfl

theorem ProcessHeaders.validateOperator_view (env : Env) (u a k : String)
    (acc : StdMap (StdMap String) × List LogCall) (e : String × String) :
    (ProcessHeaders.validateOperator env u a k acc e).1.view =
      if env.IsDefineType e.2 = false then acc.1.view
      else StdMap.assignEntries k
        (StdMap.assignEntries e.1 e.2 ((StdMap.findEntries k acc.1.view).getD [])) acc.1.view := by
  unfold ProcessHeaders.validateOperator
  split_ifs with h
  · rfl
  · rw [StdMap.view_assign, ← StdMap.entries_get]
    rfl

theorem ProcessHeaders.validateOperator_log (env : Env) (u a k : String)
    (acc : StdMap (StdMap String) × List LogCall) (e : String × String) :
    (ProcessHeaders.validateOperator env u a k acc e).2 =
      acc.2 ++ [ProcessHeaders.operatorCall env u a (k, e.1, e.2)] := by
  unfold ProcessHeaders.validateOperator ProcessHeaders.operatorCall
  split_ifs with h <;> rfl

theorem ProcessHeaders.validateOperator_foldl_log (env : Env) (u a k : String)
    (ops : List (String × String)) (acc : StdMap (StdMap String) × List LogCall) :
    (ops.foldl (ProcessHeaders.validateOperator env u a k) acc).2 =
      acc.2 ++ ops.map (fun e => ProcessHeaders.operatorCall env u a (k, e.1, e.2)) := by
  induction ops generalizing acc with
  | nil => simp
  | cons e rest ih =>
    rw [List.foldl_cons, ih, ProcessHeaders.validateOperator_log]
    simp

theorem ProcessHeaders.validateOperator_foldl_view (env : Env) (u a k : String)
    (ops : List (String × String)) (hops : KeysOrdered ops)
    (acc : StdMap (StdMap String) × List LogCall)
    (base : List (String × List (String × String))) (cur : List (String × String))
    (hview : acc.1.view = base ++ ProcessHeaders.group k cur)
    (hbase : ∀ x ∈ base, x.1.data < k.data)
    (hcur : ∀ x ∈ cur, ∀ y ∈ ops, x.1.data < y.1.data) :
    (ops.foldl (ProcessHeaders.validateOperator env u a k) acc).1.view =
      base ++ ProcessHeaders.group k (cur ++ ProcessHeaders.keptOperators env ops) := by
  induction ops generalizing acc cur with
  | nil => simpa [ProcessHeaders.keptOperators] using hview
  | cons e rest ih =>
    unfold KeysOrdered at hops
    rw [List.pairwise_cons] at hops
    rw [List.foldl_cons]
    by_cases hdef : env.IsDefineType e.2 = false
    · have hstep : (ProcessHeaders.validateOperator env u a k acc e).1.view =
          base ++ ProcessHeaders.group k cur := by
        rw [ProcessHeaders.validateOperator_view, if_pos hdef, hview]
      have := ih hops.2 _ cur hstep (fun x hx y hy => hcur x hx y (List.mem_cons_of_mem _ hy))
      rw [this]
      simp [ProcessHeaders.keptOperators, hdef]
    · have hcur' : ∀ x ∈ cur, x.1.data < e.1.data :=
        fun x hx => hcur x hx e (List.mem_cons_self _ _)
      have hstep : (ProcessHeaders.validateOperator env u a k acc e).1.view =
          base ++ ProcessHeaders.group k (cur ++ [e]) := by
        rw [ProcessHeaders.validateOperator_view, if_neg hdef, hview]
        by_cases hc : cur = []
        · subst hc
          simp only [ProcessHeaders.group, if_true, List.append_nil, List.nil_append]
          rw [StdMap.findEntries_below k base hbase]
          simp only [Option.getD_none, StdMap.assignEntries]
          rw [StdMap.assignEntries_below k _ base hbase]
          simp
        · have hne : cur ++ [e] ≠ [] := by simp
          simp only [ProcessHeaders.group, if_neg hc, if_neg hne]
          rw [StdMap.findEntries_last k cur base hbase]
          simp only [Option.getD_some]
          rw [StdMap.assignEntries_below e.1 e.2 cur hcur']
          rw [StdMap.assignEntries_last k _ cur base hbase]
      have hnext : ∀ x ∈ cur ++ [e], ∀ y ∈ rest, x.1.data < y.1.data := by
        intro x hx y hy
        rcases List.mem_append.1 hx with hx | hx
        · exact hcur x hx y (List.mem_cons_of_mem _ hy)
        · rw [List.mem_singleton] at hx
          rw [hx]; exact hops.1 y hy
      have := ih hops.2 _ (cur ++ [e]) hstep hnext
      rw [this]
      have hd : env.IsDefineType e.2 = true := by
        cases h : env.IsDefineType e.2
        · exact absurd h hdef
        · rfl
      simp [ProcessHeaders.keptOperators, hd]

theorem ProcessHeaders.validateOperators_foldl_view (env : Env) (u a : String)
    (tbl : List (String × StdMap String)) (htbl : KeysOrdered tbl)
    (acc : StdMap (StdMap String) × List LogCall)
    (hacc : ∀ x ∈ acc.1.view, ∀ y ∈ tbl, x.1.data < y.1.data) :
    (tbl.foldl (fun acc var =>
        var.2.entries.foldl (ProcessHeaders.validateOperator env u a var.1) acc) acc).1.view =
      acc.1.view ++
        (tbl.map (fun e => (e.1, e.2.entries))).filterMap (ProcessHeaders.keptGroup env) := by
  induction tbl generalizing acc with
  | nil => simp
  | cons var rest ih =>
    unfold KeysOrdered at htbl
    rw [List.pairwise_cons] at htbl
    rw [List.foldl_cons]
    have hinner := ProcessHeaders.validateOperator_foldl_view env u a var.1 var.2.entries
      var.2.ordered acc acc.1.view [] (by simp [ProcessHeaders.group])
      (fun x hx => hacc x hx var (List.mem_cons_self _ _))
      (fun x hx => absurd hx (List.not_mem_nil _))
    rw [List.nil_append] at hinner
    have hnext : ∀ x ∈ (var.2.entries.foldl (ProcessHeaders.validateOperator env u a var.1)
        acc).1.view, ∀ y ∈ rest, x.1.data < y.1.data := by
      intro x hx y hy
      rw [hinner] at hx
      rcases List.mem_append.1 hx with hx | hx
      · exact hacc x hx y (List.mem_cons_of_mem _ hy)
      · unfold ProcessHeaders.group at hx
        split_ifs at hx with hk
        · exact absurd hx (List.not_mem_nil _)
        · rw [List.mem_singleton] at hx
          rw [hx]; exact htbl.1 y hy
    rw [ih htbl.2 _ hnext, hinner, List.map_cons, List.filterMap_cons]
    unfold ProcessHeaders.keptGroup ProcessHeaders.group
    by_cases hk : ProcessHeaders.keptOperators env var.2.entries = []
    · simp [hk]
    · simp [hk]

theorem ProcessHeaders.validateOperators_view (env : Env) (u a : String)
    (table : StdMap (StdMap String)) :
    (ProcessHeaders.validateOperators env u a table StdMap.empty).1.view =
      table.view.filterMap (ProcessHeaders.keptGroup env) := by
  unfold ProcessHeaders.validateOperators
  rw [ProcessHeaders.validateOperators_foldl_view env u a table.entries table.ordered]
  · simp [StdMap.view, StdMap.empty]
  · intro x hx
    simp [StdMap.view, StdMap.empty] at hx

theorem ProcessHeaders.validateOperators_foldl_log (env : Env) (u a : String)
    (tbl : List (String × StdMap String)) (acc : StdMap (StdMap String) × List LogCall) :
    (tbl.foldl (fun acc var =>
        var.2.entries.foldl (ProcessHeaders.validateOperator env u a var.1) acc) acc).2 =
      acc.2 ++ (tbl.flatMap (fun var => var.2.entries.map
        (fun opName => (var.1, opName.1, opName.2)))).map (ProcessHeaders.operatorCall env u a) := by
  induction tbl generalizing acc with
  | nil => simp
  | cons var rest ih =>
    rw [List.foldl_cons, ih, ProcessHeaders.validateOperator_foldl_log]
    simp [List.flatMap_cons, List.map_append, List.append_assoc]

theorem ProcessHeaders.validateOperators_log (env : Env) (u a : String)
    (table acc : StdMap (StdMap String)) :
    (ProcessHeaders.validateOperators env u a table acc).2 =
      table.triples.map (ProcessHeaders.operatorCall env u a) := by
  unfold ProcessHeaders.validateOperators StdMap.triples
  rw [ProcessHeaders.validateOperators_foldl_log]
  simp

theorem ProcessHeaders.validateOperators_hasTriple (env : Env) (u a : String)
    (table : StdMap (StdMap String)) (v op ty : String) :
    (ProcessHeaders.validateOperators env u a table StdMap.empty).1.HasTriple v op ty ↔
      table.HasTriple v op ty ∧ env.IsDefineType ty = true := by
  rw [StdMap.hasTriple_iff, StdMap.hasTriple_iff, ProcessHeaders.validateOperators_view]
  constructor
  · rintro ⟨l, hl, hmem⟩
    rw [List.mem_filterMap] at hl
    obtain ⟨e, he, hkeep⟩ := hl
    unfold ProcessHeaders.keptGroup at hkeep
    split_ifs at hkeep with hk
    simp only [Option.some.injEq, Prod.mk.injEq] at hkeep
    obtain ⟨rfl, rfl⟩ := hkeep
    unfold ProcessHeaders.keptOperators at hmem
    rw [List.mem_filter] at hmem
    exact ⟨⟨e.2, he, hmem.1⟩, hmem.2⟩
  · rintro ⟨⟨l, hl, hmem⟩, hdef⟩
    have hkept : (op, ty) ∈ ProcessHeaders.keptOperators env l := by
      unfold ProcessHeaders.keptOperators
      rw [List.mem_filter]
      exact ⟨hmem, hdef⟩
    refine ⟨ProcessHeaders.keptOperators env l, ?_, hkept⟩
    rw [List.mem_filterMap]
    refine ⟨(v, l), hl, ?_⟩
    unfold ProcessHeaders.keptGroup
    rw [if_neg (List.ne_nil_of_mem hkept)]

/-! ## The guessing loop and the argument loop -/

theorem ProcessHeaders.validateGuessing_fst (env : Env) (guessing rest : List String) :
    (ProcessHeaders.validateGuessing env guessing rest).1 =
      if rest.all env.IsDefineType = true then guessing else [] := by
  induction rest with
  | nil => rfl
  | cons type rest ih =>
    unfold ProcessHeaders.validateGuessing
    by_cases h : env.IsDefineType type = false
    · simp [h]
    · have h' : env.IsDefineType type = true := by
        cases hd : env.IsDefineType type
        · exact absurd hd h
        · rfl
      rw [if_neg h, ih]
      simp [h']

theorem ProcessHeaders.validateArgument_foldl_valid (env : Env) (func : String)
    (types : List String) (acc : Bool × Nat × List LogCall) :
    (types.foldl (ProcessHeaders.validateArgument env func) acc).1 =
      (acc.1 && ProcessHeaders.validArguments env types) := by
  induction types generalizing acc with
  | nil => simp [ProcessHeaders.validArguments]
  | cons type rest ih =>
    rw [List.foldl_cons, ih]
    unfold ProcessHeaders.validArguments at *
    unfold ProcessHeaders.validateArgument
    by_cases hq : type = "?"
    · simp [hq]
    · cases hd : env.IsDefineType type <;> simp [hq, hd]

theorem ProcessHeaders.validateFunction_entries (env : Env)
    (acc : StdMap (List String) × List LogCall) (func : String × List String)
    (hacc : ∀ x ∈ acc.1.entries, x.1.data < func.1.data) :
    (ProcessHeaders.validateFunction env acc func).1.entries =
      acc.1.entries ++ (if ProcessHeaders.validArguments env func.2 = true then [func] else []) := by
  unfold ProcessHeaders.validateFunction
  simp only [ProcessHeaders.validateArgument_foldl_valid, Bool.true_and]
  cases hv : ProcessHeaders.validArguments env func.2
  · simp
  · simp only [Bool.true_eq_false, if_false, if_true]
    show StdMap.assignEntries func.1 func.2 acc.1.entries = acc.1.entries ++ [func]
    rw [StdMap.assignEntries_below func.1 func.2 acc.1.entries hacc]

theorem ProcessHeaders.validateFunction_foldl_entries (env : Env)
    (tbl : List (String × List String)) (htbl : KeysOrdered tbl)
    (acc : StdMap (List String) × List LogCall)
    (hacc : ∀ x ∈ acc.1.entries, ∀ y ∈ tbl, x.1.data < y.1.data) :
    (tbl.foldl (ProcessHeaders.validateFunction env) acc).1.entries =
      acc.1.entries ++ tbl.filter (fun func => ProcessHeaders.validArguments env func.2) := by
  induction tbl generalizing acc with
  | nil => simp
  | cons func rest ih =>
    unfold KeysOrdered at htbl
    rw [List.pairwise_cons] at htbl
    rw [List.foldl_cons]
    have hstep := ProcessHeaders.validateFunction_entries env acc func
      (fun x hx => hacc x hx func (List.mem_cons_self _ _))
    have hnext : ∀ x ∈ (ProcessHeaders.validateFunction env acc func).1.entries,
        ∀ y ∈ rest, x.1.data < y.1.data := by
      intro x hx y hy
      rw [hstep] at hx
      rcases List.mem_append.1 hx with hx | hx
      · exact hacc x hx y (List.mem_cons_of_mem _ hy)
      · split_ifs at hx with hv
        · rw [List.mem_singleton] at hx
          rw [hx]; exact htbl.1 y hy
        · exact absurd hx (List.not_mem_nil _)
    rw [ih htbl.2 _ hnext, hstep]
    cases hv : ProcessHeaders.validArguments env func.2 <;> simp [List.filter_cons, hv]

/-! ## The state after validation -/

theorem ReDefine.validate_VariablesOperators (env : Env) (self : ReDefine) :
    (self.validate env).1.VariablesOperators =
      (ProcessHeaders.validateOperators env ProcessHeaders.unknownVariable
        ProcessHeaders.addedVariable self.VariablesOperators StdMap.empty).1 := rfl

theorem ReDefine.validate_FunctionsOperators (env : Env) (self : ReDefine) :
    (self.validate env).1.FunctionsOperators =
      (ProcessHeaders.validateOperators env ProcessHeaders.unknownFunction
        ProcessHeaders.addedFunction self.FunctionsOperators StdMap.empty).1 := rfl

theorem ReDefine.validate_VariablesGuessing (env : Env) (self : ReDefine) :
    (self.validate env).1.VariablesGuessing =
      if self.VariablesGuessing.all env.IsDefineType = true then self.VariablesGuessing
      else [] := by
  rw [← ProcessHeaders.validateGuessing_fst]
  rfl

theorem ReDefine.validate_FunctionsArguments (env : Env) (self : ReDefine) :
    (self.validate env).1.FunctionsArguments.entries =
      self.FunctionsArguments.entries.filter
        (fun func => ProcessHeaders.validArguments env func.2) := by
  have h := ProcessHeaders.validateFunction_foldl_entries env self.FunctionsArguments.entries
    self.FunctionsArguments.ordered (StdMap.empty, [])
    (fun x hx => absurd hx (List.not_mem_nil _))
  simpa [StdMap.empty] using h

theorem ReDefine.validate_Raw (env : Env) (self : ReDefine) :
    (self.validate env).1.Raw = self.Raw := rfl

theorem ReDefine.validate_Status (env : Env) (self : ReDefine) :
    (self.validate env).1.Status = self.Status := rfl

theorem ReDefine.ProcessHeaders_of_no_headers (env : Env) (self : ReDefine) (path : String)
    (h : self.Headers = []) : self.ProcessHeaders env path = self.validate env := by
  unfold ReDefine.ProcessHeaders
  rw [h]
  rfl

/-! ## The logger calls of the validation -/

theorem ReDefine.validate_log (env : Env) (self : ReDefine) :
    (self.validate env).2 =
      self.VariablesOperators.triples.map
          (ProcessHeaders.operatorCall env ProcessHeaders.unknownVariable
            ProcessHeaders.addedVariable) ++
        ProcessHeaders.guessingCalls env self.VariablesGuessing ++
        self.FunctionsOperators.triples.map
          (ProcessHeaders.operatorCall env ProcessHeaders.unknownFunction
            ProcessHeaders.addedFunction) ++
        (self.FunctionsArguments.entries.foldl (ProcessHeaders.validateFunction env)
          (StdMap.empty, [])).2 ++
        ProcessHeaders.rawCalls self.Raw := by
  rw [← ProcessHeaders.validateOperators_log env _ _ self.VariablesOperators StdMap.empty,
    ← ProcessHeaders.validateOperators_log env _ _ self.FunctionsOperators StdMap.empty]
  simp only [ReDefine.validate, ProcessHeaders.guessingCalls, ProcessHeaders.rawCalls,
    List.append_assoc]

theorem ProcessHeaders.guessingCalls_format (env : Env) (guessing : List String) (c : LogCall)
    (hc : c ∈ ProcessHeaders.guessingCalls env guessing) :
    c.format = ProcessHeaders.unknownGuessing ∨ c.format = ProcessHeaders.addedGuessing := by
  have hloop : ∀ rest : List String, ∀ c ∈ (ProcessHeaders.validateGuessing env guessing rest).2,
      c.format = ProcessHeaders.unknownGuessing := by
    intro rest
    induction rest with
    | nil => intro c hc; simp [ProcessHeaders.validateGuessing] at hc
    | cons type rest ih =>
      intro c hc
      unfold ProcessHeaders.validateGuessing at hc
      split_ifs at hc with h
      · rw [List.mem_singleton] at hc
        rw [hc]
      · exact ih c hc
  unfold ProcessHeaders.guessingCalls at hc
  rcases List.mem_append.1 hc with h | h
  · left; exact hloop guessing c h
  · right
    split_ifs at h with hl
    · rw [List.mem_singleton] at h
      rw [h]
    · exact absurd h (List.not_mem_nil _)

theorem ProcessHeaders.validateArgument_foldl_format (env : Env) (func : String)
    (types : List String) (acc : Bool × Nat × List LogCall) (c : LogCall)
    (hc : c ∈ (types.foldl (ProcessHeaders.validateArgument env func) acc).2.2) :
    c ∈ acc.2.2 ∨ c.format = ProcessHeaders.unknownArgument := by
  induction types generalizing acc with
  | nil => left; exact hc
  | cons type rest ih =>
    rw [List.foldl_cons] at hc
    rcases ih _ hc with h | h
    · unfold ProcessHeaders.validateArgument at h
      split_ifs at h with hq
      · rcases List.mem_append.1 h with h | h
        · left; exact h
        · right
          rw [List.mem_singleton] at h
          rw [h]
      · left; exact h
    · right; exact h

theorem ProcessHeaders.validateFunction_foldl_format (env : Env)
    (tbl : List (String × List String)) (acc : StdMap (List String) × List LogCall)
    (c : LogCall) (hc : c ∈ (tbl.foldl (ProcessHeaders.validateFunction env) acc).2) :
    c ∈ acc.2 ∨ c.format = ProcessHeaders.unknownArgument ∨
      c.format = ProcessHeaders.addedArguments := by
  induction tbl generalizing acc with
  | nil => left; exact hc
  | cons func rest ih =>
    rw [List.foldl_cons] at hc
    rcases ih _ hc with h | h
    · unfold ProcessHeaders.validateFunction at h
      dsimp only at h
      split_ifs at h with hv
      · rcases ProcessHeaders.validateArgument_foldl_format env func.1 func.2 _ c h with h | h
        · left; exact h
        · right; left; exact h
      · rcases List.mem_append.1 h with h | h
        · rcases ProcessHeaders.validateArgument_foldl_format env func.1 func.2 _ c h with h | h
          · left; exact h
          · right; left; exact h
        · right; right
          rw [List.mem_singleton] at h
          rw [h]
    · right; exact h

theorem ProcessHeaders.rawCalls_format (raw : List (String × String)) (c : LogCall)
    (hc : c ∈ ProcessHeaders.rawCalls raw) :
    c.severity = Severity.LOG ∧ c.format = ProcessHeaders.addedRaw := by
  unfold ProcessHeaders.rawCalls at hc
  rw [List.mem_map] at hc
  obtain ⟨e, _, rfl⟩ := hc
  exact ⟨rfl, rfl⟩

theorem ProcessHeaders.operatorCall_format (env : Env) (u a : String)
    (t : String × String × String) :
    (ProcessHeaders.operatorCall env u a t).format = u ∨
      (ProcessHeaders.operatorCall env u a t).format = a := by
  unfold ProcessHeaders.operatorCall
  split_ifs
  · left; rfl
  · right; rfl

theorem ProcessHeaders.warnings_operatorCall (env : Env) (u a : String)
    (tbl : List (String × String × String)) :
    ProcessHeaders.warnings u (tbl.map (ProcessHeaders.operatorCall env u a)) =
      (tbl.filter (fun t => !env.IsDefineType t.2.2)).map (fun t =>
        { severity := Severity.WARNING, function := some ProcessHeaders.FUNCTION, format := u,
          args := [FormatArg.str t.2.2, FormatArg.str t.1,
                   FormatArg.str t.2.1] }) := by
  unfold ProcessHeaders.warnings
  induction tbl with
  | nil => rfl
  | cons t rest ih =>
    rw [List.map_cons, List.filter_cons, List.filter_cons, ih]
    unfold ProcessHeaders.operatorCall
    cases hd : env.IsDefineType t.2.2 <;> simp

theorem ProcessHeaders.filter_format_nil (p : LogCall → Bool) (log : List LogCall)
    (h : ∀ c ∈ log, p c = false) : log.filter p = [] := by
  rw [List.filter_eq_nil_iff]
  intro c hc
  rw [h c hc]
  exact Bool.false_ne_true

theorem ProcessHeaders.warnings_append (format : String) (l₁ l₂ : List LogCall) :
    ProcessHeaders.warnings format (l₁ ++ l₂) =
      ProcessHeaders.warnings format l₁ ++ ProcessHeaders.warnings format l₂ := by
  unfold ProcessHeaders.warnings
  exact List.filter_append l₁ l₂

theorem ProcessHeaders.warnings_nil_of_format (format : String) (log : List LogCall)
    (h : ∀ c ∈ log, c.format ≠ format) : ProcessHeaders.warnings format log = [] := by
  unfold ProcessHeaders.warnings
  apply ProcessHeaders.filter_format_nil
  intro c hc
  simp [h c hc]

/-! ## Validated tables -/

/-- C1: after the validation pass of `ProcessHeaders` the variable table contains the
triple `(var, operatorName, typeName)` if and only if the input variable table contains
that triple and `IsDefineType( typeName )` holds; so kept triples are unchanged and an
unknown type removes its own triple only. -/
theorem C1_variables_kept_iff_known (env : Env) (self : ReDefine)
    (var operatorName typeName : String) :
    (self.validate env).1.VariablesOperators.HasTriple var operatorName typeName ↔
      self.VariablesOperators.HasTriple var operatorName typeName ∧
        env.IsDefineType typeName = true := by
  rw [ReDefine.validate_VariablesOperators]
  exact ProcessHeaders.validateOperators_hasTriple env _ _ self.VariablesOperators
    var operatorName typeName

/-- C2: the guess list after validation is the input list (same entries, same order)
when every entry is a known define type, and is empty as soon as one entry is not. -/
theorem C2_guessing_all_or_nothing (env : Env) (self : ReDefine) :
    ((∃ type ∈ self.VariablesGuessing, env.IsDefineType type = false) →
        (self.validate env).1.VariablesGuessing = []) ∧
      ((∀ type ∈ self.VariablesGuessing, env.IsDefineType type = true) →
        (self.validate env).1.VariablesGuessing = self.VariablesGuessing) ∧
      (self.validate env).1.VariablesGuessing =
        if self.VariablesGuessing.all env.IsDefineType = true then self.VariablesGuessing
        else [] := by
  refine ⟨?_, ?_, ReDefine.validate_VariablesGuessing env self⟩ <;>
    rw [ReDefine.validate_VariablesGuessing]
  · rintro ⟨type, hmem, hdef⟩
    have : ¬ (self.VariablesGuessing.all env.IsDefineType = true) := by
      rw [List.all_eq_true]
      intro h
      rw [h type hmem] at hdef
      exact Bool.noConfusion hdef
    rw [if_neg this]
  · intro h
    rw [if_pos (List.all_eq_true.2 h)]

/-- C3: a function with its argument list is in the validated argument table if and only
if it is in the input table with that same list and every entry of the list is the
wildcard `?` or a known define type. -/
theorem C3_arguments_kept_iff_valid (env : Env) (self : ReDefine) (function : String)
    (types : List String) :
    (self.validate env).1.FunctionsArguments.find function = some types ↔
      self.FunctionsArguments.find function = some types ∧
        ∀ type ∈ types, type = "?" ∨ env.IsDefineType type = true := by
  unfold StdMap.find
  rw [StdMap.findEntries_eq_some_iff _ _ _ (self.validate env).1.FunctionsArguments.ordered,
    StdMap.findEntries_eq_some_iff _ _ _ self.FunctionsArguments.ordered,
    ReDefine.validate_FunctionsArguments, List.mem_filter]
  unfold ProcessHeaders.validArguments
  simp only [List.all_eq_true, Bool.or_eq_true, decide_eq_true_eq]

/-- C4: after validation the function-operator table contains the triple
`(function, operatorName, typeName)` if and only if the input function-operator table
contains it and `IsDefineType( typeName )` holds, whatever the variable table is. -/
theorem C4_functions_kept_iff_known (env : Env) (self : ReDefine)
    (function operatorName typeName : String) :
    (self.validate env).1.FunctionsOperators.HasTriple function operatorName typeName ↔
      self.FunctionsOperators.HasTriple function operatorName typeName ∧
        env.IsDefineType typeName = true := by
  rw [ReDefine.validate_FunctionsOperators]
  exact ProcessHeaders.validateOperators_hasTriple env _ _ self.FunctionsOperators
    function operatorName typeName

/-! ## Warnings of the operator loops -/

theorem ProcessHeaders.warnings_validate (env : Env) (self : ReDefine) (format : String)
    (hg : format ≠ ProcessHeaders.unknownGuessing) (hg' : format ≠ ProcessHeaders.addedGuessing)
    (ha : format ≠ ProcessHeaders.unknownArgument) (ha' : format ≠ ProcessHeaders.addedArguments)
    (hr : format ≠ ProcessHeaders.addedRaw) :
    ProcessHeaders.warnings format (self.validate env).2 =
      ProcessHeaders.warnings format (self.VariablesOperators.triples.map
          (ProcessHeaders.operatorCall env ProcessHeaders.unknownVariable
            ProcessHeaders.addedVariable)) ++
        ProcessHeaders.warnings format (self.FunctionsOperators.triples.map
          (ProcessHeaders.operatorCall env ProcessHeaders.unknownFunction
            ProcessHeaders.addedFunction)) := by
  rw [ReDefine.validate_log]
  simp only [ProcessHeaders.warnings_append]
  have h1 : ProcessHeaders.warnings format
      (ProcessHeaders.guessingCalls env self.VariablesGuessing) = [] := by
    apply ProcessHeaders.warnings_nil_of_format
    intro c hc e
    rcases ProcessHeaders.guessingCalls_format env _ c hc with h | h
    · exact hg (e.symm.trans h)
    · exact hg' (e.symm.trans h)
  have h2 : ProcessHeaders.warnings format
      (self.FunctionsArguments.entries.foldl (ProcessHeaders.validateFunction env)
        (StdMap.empty, [])).2 = [] := by
    apply ProcessHeaders.warnings_nil_of_format
    intro c hc e
    rcases ProcessHeaders.validateFunction_foldl_format env _ _ c hc with h | h | h
    · exact absurd h (List.not_mem_nil _)
    · exact ha (e.symm.trans h)
    · exact ha' (e.symm.trans h)
  have h3 : ProcessHeaders.warnings format (ProcessHeaders.rawCalls self.Raw) = [] := by
    apply ProcessHeaders.warnings_nil_of_format
    intro c hc e
    exact hr (e.symm.trans (ProcessHeaders.rawCalls_format _ c hc).2)
  rw [h1, h2, h3]
  simp

theorem ProcessHeaders.warnings_operatorCall_other (env : Env) (format u a : String)
    (hu : format ≠ u) (ha : format ≠ a) (tbl : List (String × String × String)) :
    ProcessHeaders.warnings format (tbl.map (ProcessHeaders.operatorCall env u a)) = [] := by
  apply ProcessHeaders.warnings_nil_of_format
  intro c hc e
  rw [List.mem_map] at hc
  obtain ⟨t, _, rfl⟩ := hc
  rcases ProcessHeaders.operatorCall_format env u a t with h | h
  · exact hu (e.symm.trans h)
  · exact ha (e.symm.trans h)

/-! ## The logger -/

theorem Print.location_eq (current : ReDefine.SStatus.SCurrent) :
    Print.location current =
      if current.LineNumber % 2 ^ 32 = 0 then " : file<" ++ current.File ++ ">"
      else " : fileline<" ++ current.File ++ ":" ++
        Nat.repr (current.LineNumber % 2 ^ 32) ++ ">" := by
  unfold Print.location
  by_cases h : current.LineNumber % 2 ^ 32 = 0
  · simp only [h, ne_eq, not_true_eq_false, if_false, if_true]
    rfl
  · simp only [h, ne_eq, not_false_eq_true, if_true, if_false]
    rfl

theorem Print_of_text (env : Env) (self : Option ReDefine) (pfx function : Option String)
    (format : String) (args : List FormatArg) (lineInfo : Bool) (text : String)
    (htext : vsnprintf MAX_LOGTEXT format args = some text) (hlen : StrLength text ≠ 0) :
    Print env self pfx function format args lineInfo =
      some (Effect.stdout (c_str (Print.line env self pfx function text lineInfo) ++ "\n") ::
        (if env.flogOpens (Print.logName pfx) = true then
          [Effect.fileAppend (Print.logName pfx)
            (Print.line env self pfx function text lineInfo ++ "\n")]
        else [])) := by
  have hparen : ∀ x : String, " " ++ ("(" ++ x) = " (" ++ x := by
    intro x
    rw [← String.append_assoc]
    rfl
  have hdot : ∀ x : String, "ReDefine" ++ ("." ++ x) = "ReDefine." ++ x := by
    intro x
    rw [← String.append_assoc]
    rfl
  cases self with
  | none =>
    cases pfx <;> cases function <;>
      simp [Print, htext, hlen, Print.line, Print.logName, Print.locationPart,
        Print.currentPart, String.append_assoc, hparen, hdot]
  | some s =>
    by_cases h1 : s.Status.Current.Line = "" <;>
      by_cases h2 : lineInfo = true ∧ s.Status.Current.File ≠ "" <;>
      cases pfx <;> cases function <;>
      simp [Print, htext, hlen, Print.line, Print.logName, Print.locationPart,
        Print.currentPart, Print.location_eq, String.append_assoc, hparen, hdot, h1, h2]

theorem Print_of_empty (env : Env) (self : Option ReDefine) (pfx function : Option String)
    (format : String) (args : List FormatArg) (lineInfo : Bool) (text : String)
    (htext : vsnprintf MAX_LOGTEXT format args = some text) (hlen : StrLength text = 0) :
    Print env self pfx function format args lineInfo = some [] := by
  unfold Print
  simp only [htext, if_pos hlen]

theorem StrLength.count_le (l : List Char) : StrLength.count l ≤ l.length := by
  induction l with
  | nil => exact Nat.le_refl 0
  | cons c rest ih =>
    unfold StrLength.count
    split_ifs
    · exact Nat.zero_le _
    · simp only [List.length_cons]
      omega

theorem formatted_cons (c d : Char) (rest : List Char) (args : List FormatArg)
    (hc : c ≠ '%') :
    formatted (c :: d :: rest) args = (formatted (d :: rest) args).map (fun out => c :: out) := by
  conv_lhs => unfold formatted
  simp only [if_neg hc]

theorem vsnprintf_nonempty (format : String) (args : List FormatArg) (c d : Char)
    (rest : List Char) (hfmt : (c_str format).data = c :: d :: rest) (hc : c ≠ '%')
    (h0 : c ≠ Char.ofNat 0) (hsome : (formatted (c_str format).data args).isSome = true) :
    ∃ text, vsnprintf MAX_LOGTEXT format args = some text ∧ StrLength text ≠ 0 := by
  unfold vsnprintf
  rw [hfmt, formatted_cons c d rest args hc] at *
  cases hout : formatted (d :: rest) args with
  | none => rw [hout] at hsome; exact absurd hsome (by simp)
  | some out =>
    refine ⟨_, rfl, ?_⟩
    simp only [Option.map_some', MAX_LOGTEXT]
    unfold StrLength
    show StrLength.count (List.take 4095 (c :: out)) % 2 ^ 32 ≠ 0
    rw [List.take_succ_cons]
    unfold StrLength.count
    rw [if_neg h0]
    have h1 := StrLength.count_le (List.take 4094 out)
    have h2 : (List.take 4094 out).length ≤ 4094 := List.length_take_le 4094 out
    omega

theorem ReDefine.emit_writes (env : Env) (self : ReDefine) (call : LogCall) (c d : Char)
    (rest : List Char) (hfmt : (c_str call.format).data = c :: d :: rest) (hc : c ≠ '%')
    (h0 : c ≠ Char.ofNat 0) (hsome : (formatted (c_str call.format).data call.args).isSome = true) :
    ∃ line effects, self.emit env call = some (Effect.stdout line :: effects) := by
  obtain ⟨text, htext, hlen⟩ := vsnprintf_nonempty call.format call.args c d rest hfmt hc h0 hsome
  unfold ReDefine.emit
  cases call.severity
  · exact ⟨_, _, Print_of_text env (some self) _ _ _ _ _ text htext hlen⟩
  · exact ⟨_, _, Print_of_text env (some self) _ _ _ _ _ text htext hlen⟩
  · exact ⟨_, _, Print_of_text env (some self) _ _ _ _ _ text htext hlen⟩

/-! ## Claims about the logger calls of the validation -/

/-- C5: the WARNING calls of the validation pass about variable triples are, in table
order, one call for each triple of the variable table whose type is not a known define
type, made with that triple's type, variable and operator name as arguments; likewise
for the function-operator table; a triple whose type is known gets no WARNING; and each
of these calls writes a line. -/
theorem C5_one_warning_per_unknown_triple (env : Env) (self : ReDefine) :
    ProcessHeaders.warnings ProcessHeaders.unknownVariable (self.validate env).2 =
        (self.VariablesOperators.triples.filter (fun t => !env.IsDefineType t.2.2)).map
          (fun t =>
            { severity := Severity.WARNING, function := some ProcessHeaders.FUNCTION,
              format := "unknown define type<%s> : variable<%s> operatorName<%s>",
              args := [FormatArg.str t.2.2, FormatArg.str t.1,
                       FormatArg.str t.2.1] }) ∧
      ProcessHeaders.warnings ProcessHeaders.unknownFunction (self.validate env).2 =
        (self.FunctionsOperators.triples.filter (fun t => !env.IsDefineType t.2.2)).map
          (fun t =>
            { severity := Severity.WARNING, function := some ProcessHeaders.FUNCTION,
              format := "unknown define type<%s> : function<%s> operatorName<%s>",
              args := [FormatArg.str t.2.2, FormatArg.str t.1,
                       FormatArg.str t.2.1] }) ∧
      ∀ call ∈ ProcessHeaders.warnings ProcessHeaders.unknownVariable (self.validate env).2 ++
          ProcessHeaders.warnings ProcessHeaders.unknownFunction (self.validate env).2,
        ∃ line effects, self.emit env call = some (Effect.stdout line :: effects) := by
  have hv : ProcessHeaders.warnings ProcessHeaders.unknownVariable (self.validate env).2 =
      (self.VariablesOperators.triples.filter (fun t => !env.IsDefineType t.2.2)).map
        (fun t =>
          { severity := Severity.WARNING, function := some ProcessHeaders.FUNCTION,
            format := "unknown define type<%s> : variable<%s> operatorName<%s>",
            args := [FormatArg.str t.2.2, FormatArg.str t.1,
                     FormatArg.str t.2.1] }) := by
    rw [ProcessHeaders.warnings_validate env self _ (by decide) (by decide) (by decide)
      (by decide) (by decide),
      ProcessHeaders.warnings_operatorCall,
      ProcessHeaders.warnings_operatorCall_other env _ _ _ (by decide) (by decide)]
    simp [ProcessHeaders.unknownVariable]
  have hf : ProcessHeaders.warnings ProcessHeaders.unknownFunction (self.validate env).2 =
      (self.FunctionsOperators.triples.filter (fun t => !env.IsDefineType t.2.2)).map
        (fun t =>
          { severity := Severity.WARNING, function := some ProcessHeaders.FUNCTION,
            format := "unknown define type<%s> : function<%s> operatorName<%s>",
            args := [FormatArg.str t.2.2, FormatArg.str t.1,
                     FormatArg.str t.2.1] }) := by
    rw [ProcessHeaders.warnings_validate env self _ (by decide) (by decide) (by decide)
      (by decide) (by decide),
      ProcessHeaders.warnings_operatorCall_other env _ _ _ (by decide) (by decide),
      ProcessHeaders.warnings_operatorCall]
    simp [ProcessHeaders.unknownFunction]
  refine ⟨hv, hf, ?_⟩
  intro call hcall
  rw [hv, hf] at hcall
  rcases List.mem_append.1 hcall with h | h
  · rw [List.mem_map] at h
    obtain ⟨t, _, rfl⟩ := h
    exact ReDefine.emit_writes env self _ 'u' 'n' _ rfl (by decide) (by decide) rfl
  · rw [List.mem_map] at h
    obtain ⟨t, _, rfl⟩ := h
    exact ReDefine.emit_writes env self _ 'u' 'n' _ rfl (by decide) (by decide) rfl

theorem Spec.IsDefineType_wildcard (reg : Registry) : Spec.IsDefineType reg "?" = false := by
  simp [Spec.IsDefineType]

theorem ReDefine.validate_wildcard_arguments (env : Env) (self : ReDefine) (function : String)
    (types : List String) :
    (self.validate env).1.FunctionsArguments.find function = some types ↔
      self.FunctionsArguments.find function = some types ∧
        ∀ type ∈ types, type ≠ "?" → env.IsDefineType type = true := by
  unfold StdMap.find
  rw [StdMap.findEntries_eq_some_iff _ _ _ (self.validate env).1.FunctionsArguments.ordered,
    StdMap.findEntries_eq_some_iff _ _ _ self.FunctionsArguments.ordered,
    ReDefine.validate_FunctionsArguments, List.mem_filter]
  unfold ProcessHeaders.validArguments
  simp only [List.all_eq_true, Bool.or_eq_true, decide_eq_true_eq]
  constructor
  · rintro ⟨h1, h2⟩
    exact ⟨h1, fun type ht hne => (h2 type ht).resolve_left hne⟩
  · rintro ⟨h1, h2⟩
    refine ⟨h1, fun type ht => ?_⟩
    by_cases hq : type = "?"
    · exact Or.inl hq
    · exact Or.inr (h2 type ht hq)

/-- C6: `isKnownType` of the spec answers false for the wildcard `?` over every define
registry, and with an `IsDefineType` that answers false for `?` the validation never
accepts `?` as a variable type, a function-operator type or a guess type: no triple of the
validated variable table and none of the validated function-operator table has type `?`,
and a guess list that contains `?` is discarded.  `?` is accepted as an entry of a
function argument list: a function is kept with its list if and only if every entry of
the list other than `?` is a known define type. -/
theorem C6_wildcard_only_in_arguments (reg : Registry) (env : Env) (self : ReDefine)
    (h : env.IsDefineType "?" = false) :
    Spec.IsDefineType reg "?" = false ∧
      (∀ var operatorName,
        ¬ (self.validate env).1.VariablesOperators.HasTriple var operatorName "?") ∧
      (∀ function operatorName,
        ¬ (self.validate env).1.FunctionsOperators.HasTriple function operatorName "?") ∧
      ("?" ∈ self.VariablesGuessing → (self.validate env).1.VariablesGuessing = []) ∧
      ∀ function types,
        ((self.validate env).1.FunctionsArguments.find function = some types ↔
          self.FunctionsArguments.find function = some types ∧
            ∀ type ∈ types, type ≠ "?" → env.IsDefineType type = true) := by
  refine ⟨Spec.IsDefineType_wildcard reg, ?_, ?_, ?_, ?_⟩
  · intro var operatorName hkept
    rw [ReDefine.validate_VariablesOperators] at hkept
    have hknown := ((ProcessHeaders.validateOperators_hasTriple env _ _
      self.VariablesOperators var operatorName "?").1 hkept).2
    rw [h] at hknown
    exact Bool.noConfusion hknown
  · intro function operatorName hkept
    rw [ReDefine.validate_FunctionsOperators] at hkept
    have hknown := ((ProcessHeaders.validateOperators_hasTriple env _ _
      self.FunctionsOperators function operatorName "?").1 hkept).2
    rw [h] at hknown
    exact Bool.noConfusion hknown
  · intro hmem
    rw [ReDefine.validate_VariablesGuessing]
    have hall : ¬ (self.VariablesGuessing.all env.IsDefineType = true) := by
      rw [List.all_eq_true]
      intro hknown
      rw [hknown "?" hmem] at h
      exact Bool.noConfusion h
    rw [if_neg hall]
  · exact ReDefine.validate_wildcard_arguments env self

/-- C6 on a registry in which a define is named `?`: the variable rule, the function rule
and the guess list that use `?` as a type are dropped, and the function whose two
arguments are `?` is kept. -/
theorem C6_wildcard_only_in_arguments_witness :
    (Spec.env Sample.wildcardRegistry Sample.operators).IsDefineType "?" = false ∧
      ¬ (Sample.wildcardConfig.validate
        (Spec.env Sample.wildcardRegistry Sample.operators)).1.VariablesOperators.HasTriple
        "damageType" "EQUAL" "?" ∧
      ¬ (Sample.wildcardConfig.validate
        (Spec.env Sample.wildcardRegistry Sample.operators)).1.FunctionsOperators.HasTriple
        "weapon_dmg_type" "EQUAL" "?" ∧
      (Sample.wildcardConfig.validate
        (Spec.env Sample.wildcardRegistry Sample.operators)).1.VariablesGuessing = [] ∧
      (Sample.wildcardConfig.validate
        (Spec.env Sample.wildcardRegistry Sample.operators)).1.FunctionsArguments.find
        "critter_dmg" = some ["?", "?"] :=
  ⟨by decide,
    (C6_wildcard_only_in_arguments Sample.wildcardRegistry
      (Spec.env Sample.wildcardRegistry Sample.operators) Sample.wildcardConfig
      (by decide)).2.1 "damageType" "EQUAL",
    (C6_wildcard_only_in_arguments Sample.wildcardRegistry
      (Spec.env Sample.wildcardRegistry Sample.operators) Sample.wildcardConfig
      (by decide)).2.2.1 "weapon_dmg_type" "EQUAL",
    (C6_wildcard_only_in_arguments Sample.wildcardRegistry
      (Spec.env Sample.wildcardRegistry Sample.operators) Sample.wildcardConfig
      (by decide)).2.2.2.1 (by decide),
    ((C6_wildcard_only_in_arguments Sample.wildcardRegistry
      (Spec.env Sample.wildcardRegistry Sample.operators) Sample.wildcardConfig
      (by decide)).2.2.2.2 "critter_dmg" ["?", "?"]).2 ⟨by decide, by decide⟩⟩

theorem ProcessHeaders.logs_nil_of_format (format : String) (log : List LogCall)
    (h : ∀ c ∈ log, c.format ≠ format) : ProcessHeaders.logs format log = [] := by
  unfold ProcessHeaders.logs
  apply ProcessHeaders.filter_format_nil
  intro c hc
  simp [h c hc]

theorem ProcessHeaders.logs_rawCalls (raw : List (String × String)) :
    ProcessHeaders.logs ProcessHeaders.addedRaw (ProcessHeaders.rawCalls raw) =
      ProcessHeaders.rawCalls raw := by
  unfold ProcessHeaders.logs
  rw [List.filter_eq_self]
  intro c hc
  have h := ProcessHeaders.rawCalls_format raw c hc
  simp [h.1, h.2]

theorem ProcessHeaders.logs_validate_raw (env : Env) (self : ReDefine) :
    ProcessHeaders.logs ProcessHeaders.addedRaw (self.validate env).2 =
      ProcessHeaders.rawCalls self.Raw := by
  rw [ReDefine.validate_log]
  have happ : ∀ l₁ l₂ : List LogCall, ProcessHeaders.logs ProcessHeaders.addedRaw (l₁ ++ l₂) =
      ProcessHeaders.logs ProcessHeaders.addedRaw l₁ ++
        ProcessHeaders.logs ProcessHeaders.addedRaw l₂ := by
    intro l₁ l₂
    unfold ProcessHeaders.logs
    exact List.filter_append l₁ l₂
  have hop : ∀ (u a : String) (tbl : List (String × String × String)),
      ProcessHeaders.addedRaw ≠ u → ProcessHeaders.addedRaw ≠ a →
      ProcessHeaders.logs ProcessHeaders.addedRaw
        (tbl.map (ProcessHeaders.operatorCall env u a)) = [] := by
    intro u a tbl hu ha
    apply ProcessHeaders.logs_nil_of_format
    intro c hc e
    rw [List.mem_map] at hc
    obtain ⟨t, _, rfl⟩ := hc
    rcases ProcessHeaders.operatorCall_format env u a t with h | h
    · exact hu (e.symm.trans h)
    · exact ha (e.symm.trans h)
  have h1 : ProcessHeaders.logs ProcessHeaders.addedRaw
      (ProcessHeaders.guessingCalls env self.VariablesGuessing) = [] := by
    apply ProcessHeaders.logs_nil_of_format
    intro c hc e
    rcases ProcessHeaders.guessingCalls_format env _ c hc with h | h
    · exact absurd (e.symm.trans h) (by decide)
    · exact absurd (e.symm.trans h) (by decide)
  have h2 : ProcessHeaders.logs ProcessHeaders.addedRaw
      (self.FunctionsArguments.entries.foldl (ProcessHeaders.validateFunction env)
        (StdMap.empty, [])).2 = [] := by
    apply ProcessHeaders.logs_nil_of_format
    intro c hc e
    rcases ProcessHeaders.validateFunction_foldl_format env _ _ c hc with h | h | h
    · exact absurd h (List.not_mem_nil _)
    · exact absurd (e.symm.trans h) (by decide)
    · exact absurd (e.symm.trans h) (by decide)
  rw [happ, happ, happ, happ, hop _ _ _ (by decide) (by decide),
    hop _ _ _ (by decide) (by decide), h1, h2, ProcessHeaders.logs_rawCalls]
  simp

/-- C7: validation leaves the raw table as it is, whatever its entries are, and its
informational calls for raw replacements are one `LOG` per raw entry, in the order of the
entries, each naming the entry's first string and each writing a line. -/
theorem C7_raw_kept_and_logged_in_order (env : Env) (self : ReDefine) :
    (self.validate env).1.Raw = self.Raw ∧
      ProcessHeaders.logs ProcessHeaders.addedRaw (self.validate env).2 =
        self.Raw.map (fun e =>
          { severity := Severity.LOG, function := none, format := "Added raw ... %s",
            args := [FormatArg.str e.1] }) ∧
      (∃ before, (self.validate env).2 = before ++
        ProcessHeaders.logs ProcessHeaders.addedRaw (self.validate env).2) ∧
      ∀ call ∈ ProcessHeaders.logs ProcessHeaders.addedRaw (self.validate env).2,
        ∃ line effects, self.emit env call = some (Effect.stdout line :: effects) := by
  refine ⟨rfl, ?_, ?_, ?_⟩
  · rw [ProcessHeaders.logs_validate_raw]
    rfl
  · rw [ProcessHeaders.logs_validate_raw, ReDefine.validate_log]
    exact ⟨_, rfl⟩
  · intro call hcall
    rw [ProcessHeaders.logs_validate_raw] at hcall
    unfold ProcessHeaders.rawCalls at hcall
    rw [List.mem_map] at hcall
    obtain ⟨e, _, rfl⟩ := hcall
    exact ReDefine.emit_writes env self _ 'A' 'd' _ rfl (by decide) (by decide) rfl

/-! ## Claims about the logger -/

/-- C8 (amended): a logger call whose formatted message is not empty writes the line
`[PREFIX ](FUNCTION )message`, then, when line information is requested and a current
file `F` is set, `" : file<F>"` if the line number is zero and `" : fileline<F:L>"` if it
is `L`, then, when a current line is set, `" :: "` and that line trimmed.  Standard output
receives the line up to a NUL character, the log file (when it opens) the line. -/
theorem C8_line_format (env : Env) (self : Option ReDefine) (pfx function : Option String)
    (format : String) (args : List FormatArg) (lineInfo : Bool) (text : String)
    (htext : vsnprintf MAX_LOGTEXT format args = some text) (hlen : StrLength text ≠ 0) :
    Print env self pfx function format args lineInfo =
      some (Effect.stdout (c_str (Print.line env self pfx function text lineInfo) ++ "\n") ::
        (if env.flogOpens (Print.logName pfx) = true then
          [Effect.fileAppend (Print.logName pfx)
            (Print.line env self pfx function text lineInfo ++ "\n")]
        else [])) :=
  Print_of_text env self pfx function format args lineInfo text htext hlen

/-- Witness of C8: a WARNING with message `m` while line 3 of `a.h` is current. -/
theorem C8_line_format_witness :
    vsnprintf MAX_LOGTEXT "m" [] = some "m" ∧ StrLength "m" ≠ 0 ∧
      Print (Spec.env Sample.noDefines Sample.operators) (some (Sample.state "a.h" "" 3))
          (some "WARNING") none "m" [] true =
        some [Effect.stdout "WARNING m : fileline<a.h:3>\n",
              Effect.fileAppend "ReDefine.WARNING.log" "WARNING m : fileline<a.h:3>\n"] :=
  ⟨by decide, by decide,
    C8_line_format (Spec.env Sample.noDefines Sample.operators)
      (some (Sample.state "a.h" "" 3)) (some "WARNING") none "m" [] true "m" (by decide)
      (by decide)⟩

/-- Counterexample to C8 as stated: with line 3 of `a.h` current, the WARNING `m` is
written as `WARNING m : fileline<a.h:3>`, where the stated form is
`WARNING m : file<a.h:3>`; and with `a.h` current and no line number, the LOG `m` is
written as `m`, where the stated form is `m : file<a.h>`. -/
theorem C8_fileline_counterexample :
    (Sample.state "a.h" "" 0).LOG (Spec.env Sample.noDefines Sample.operators) "m" [] =
      some [Effect.stdout "m\n", Effect.fileAppend "ReDefine.log" "m\n"] ∧
      Spec.line (Spec.env Sample.noDefines Sample.operators)
        (Sample.state "a.h" "" 0).Status.Current none none "m" = "m : file<a.h>" ∧
      Print (Spec.env Sample.noDefines Sample.operators) (some (Sample.state "a.h" "" 3))
        (some "WARNING") none "m" [] true =
      some [Effect.stdout "WARNING m : fileline<a.h:3>\n",
            Effect.fileAppend "ReDefine.WARNING.log" "WARNING m : fileline<a.h:3>\n"] ∧
      Spec.line (Spec.env Sample.noDefines Sample.operators)
        (Sample.state "a.h" "" 3).Status.Current (some "WARNING") none "m" =
        "WARNING m : file<a.h:3>" ∧
      Print (Spec.env Sample.noDefines Sample.operators) (some (Sample.state "a.h" "" 3))
        (some "WARNING") none "m" [] true ≠
      some [Effect.stdout (Spec.line (Spec.env Sample.noDefines Sample.operators)
              (Sample.state "a.h" "" 3).Status.Current (some "WARNING") none "m" ++ "\n"),
            Effect.fileAppend "ReDefine.WARNING.log"
              (Spec.line (Spec.env Sample.noDefines Sample.operators)
                (Sample.state "a.h" "" 3).Status.Current (some "WARNING") none "m" ++ "\n")] := by
  decide

/-- C9: when the message is empty after formatting, `DEBUG`, `WARNING` and `LOG` (and
`Print` with any prefix, function tag, line-information flag and status) emit nothing:
no write to standard output and no append to a log file. -/
theorem C9_empty_message_emits_nothing (env : Env) (self : ReDefine)
    (function : Option String) (format : String) (args : List FormatArg)
    (hempty : vsnprintf MAX_LOGTEXT format args = some "") :
    self.DEBUG env function format args = some [] ∧
      self.WARNING env function format args = some [] ∧
      self.LOG env format args = some [] ∧
      ∀ (other : Option ReDefine) (pfx tag : Option String) (lineInfo : Bool),
        Print env other pfx tag format args lineInfo = some [] := by
  have h : ∀ (other : Option ReDefine) (pfx tag : Option String) (lineInfo : Bool),
      Print env other pfx tag format args lineInfo = some [] :=
    fun other pfx tag lineInfo =>
      Print_of_empty env other pfx tag format args lineInfo "" hempty (by decide)
  exact ⟨h _ _ _ _, h _ _ _ _, h _ _ _ _, h⟩

/-- Witness of C9: the format `%s` with an empty string, while a file and a line are
current. -/
theorem C9_empty_message_emits_nothing_witness :
    (Sample.state "a.h" "x = 1" 3).DEBUG (Spec.env Sample.noDefines Sample.operators)
        (some "ProcessHeaders") "%s" [FormatArg.str ""] = some [] ∧
      (Sample.state "a.h" "x = 1" 3).WARNING (Spec.env Sample.noDefines Sample.operators)
        (some "ProcessHeaders") "%s" [FormatArg.str ""] = some [] ∧
      (Sample.state "a.h" "x = 1" 3).LOG (Spec.env Sample.noDefines Sample.operators)
        "%s" [FormatArg.str ""] = some [] ∧
      ∀ (other : Option ReDefine) (pfx tag : Option String) (lineInfo : Bool),
        Print (Spec.env Sample.noDefines Sample.operators) other pfx tag "%s"
          [FormatArg.str ""] lineInfo = some [] :=
  C9_empty_message_emits_nothing (Spec.env Sample.noDefines Sample.operators)
    (Sample.state "a.h" "x = 1" 3) (some "ProcessHeaders") "%s" [FormatArg.str ""] (by decide)

theorem StdMap.mem_triples_of_hasTriple (m : StdMap (StdMap String)) (a b c : String)
    (h : m.HasTriple a b c) : (a, b, c) ∈ m.triples := by
  rw [StdMap.hasTriple_iff] at h
  obtain ⟨l, hl, hbc⟩ := h
  unfold StdMap.view at hl
  rw [List.mem_map] at hl
  obtain ⟨e, he, heq⟩ := hl
  simp only [Prod.mk.injEq] at heq
  obtain ⟨rfl, rfl⟩ := heq
  unfold StdMap.triples
  rw [List.mem_flatMap]
  exact ⟨e, he, List.mem_map.2 ⟨(b, c), hbc, rfl⟩⟩

theorem vsnprintf_addedVariable (a b c d : String) :
    vsnprintf MAX_LOGTEXT "Added variable %s ... %s %s %s"
        [FormatArg.str a, FormatArg.str b, FormatArg.str c, FormatArg.str d] =
      some ⟨("Added variable " ++ c_str a ++ " ... " ++ c_str b ++ " " ++ c_str c ++ " " ++
        c_str d).data.take 4095⟩ := by
  have h : formatted (c_str "Added variable %s ... %s %s %s").data
      [FormatArg.str a, FormatArg.str b, FormatArg.str c, FormatArg.str d] =
      some ("Added variable ".data ++ ((c_str a).data ++ (" ... ".data ++ ((c_str b).data ++
        (" ".data ++ ((c_str c).data ++ (" ".data ++ ((c_str d).data ++ [])))))))) := rfl
  unfold vsnprintf
  rw [h]
  simp [MAX_LOGTEXT, String.data_append]

/-- C10 (amended): for every accepted variable triple the validation makes the call
`LOG( "Added variable %s ... %s %s %s", lowercased operator name, variable, operator
symbol, type name )`, which writes the line `Added variable <lowercased operator name>
... <variable> <operator symbol> <type name>` (cut to 4095 characters), followed by the
current-line part. -/
theorem C10_added_variable_line (env : Env) (self : ReDefine)
    (var operatorName typeName : String)
    (hrule : self.VariablesOperators.HasTriple var operatorName typeName)
    (hknown : env.IsDefineType typeName = true) :
    ({ severity := Severity.LOG, function := none, format := "Added variable %s ... %s %s %s",
       args := [FormatArg.str ((env.TextGetLower operatorName)),
                FormatArg.str var,
                FormatArg.str ((env.GetOperator operatorName)),
                FormatArg.str typeName] } : LogCall) ∈ (self.validate env).2 ∧
      self.LOG env "Added variable %s ... %s %s %s"
          [FormatArg.str ((env.TextGetLower operatorName)), FormatArg.str var,
           FormatArg.str ((env.GetOperator operatorName)),
           FormatArg.str typeName] =
        some (Effect.stdout (c_str
            (String.mk (("Added variable " ++ c_str (env.TextGetLower operatorName) ++ " ... " ++
              c_str var ++ " " ++ c_str (env.GetOperator operatorName) ++ " " ++
              c_str typeName).data.take 4095) ++ Print.currentPart env (some self)) ++ "\n") ::
          (if env.flogOpens "ReDefine.log" = true then
            [Effect.fileAppend "ReDefine.log"
              (String.mk (("Added variable " ++ c_str (env.TextGetLower operatorName) ++
                " ... " ++ c_str var ++ " " ++ c_str (env.GetOperator operatorName) ++ " " ++
                c_str typeName).data.take 4095) ++ Print.currentPart env (some self) ++ "\n")]
          else [])) := by
  constructor
  · rw [ReDefine.validate_log]
    apply List.mem_append_left
    apply List.mem_append_left
    apply List.mem_append_left
    apply List.mem_append_left
    rw [List.mem_map]
    refine ⟨(var, operatorName, typeName),
      StdMap.mem_triples_of_hasTriple _ _ _ _ hrule, ?_⟩
    unfold ProcessHeaders.operatorCall
    simp [hknown, ProcessHeaders.addedVariable]
  · have htext := vsnprintf_addedVariable (env.TextGetLower operatorName) var
      (env.GetOperator operatorName) typeName
    obtain ⟨text, htext', hlen⟩ := vsnprintf_nonempty "Added variable %s ... %s %s %s"
      [FormatArg.str ((env.TextGetLower operatorName)), FormatArg.str var,
       FormatArg.str ((env.GetOperator operatorName)), FormatArg.str typeName]
      'A' 'd' _ rfl (by decide) (by decide) rfl
    have heq : text = String.mk (("Added variable " ++ c_str (env.TextGetLower operatorName) ++
        " ... " ++ c_str var ++ " " ++ c_str (env.GetOperator operatorName) ++ " " ++
        c_str typeName).data.take 4095) :=
      Option.some.inj (htext'.symm.trans htext)
    subst heq
    unfold ReDefine.LOG
    rw [Print_of_text env (some self) none none _ _ false _ htext hlen]
    simp [Print.line, Print.locationPart, Print.logName]

/-- Witness of C10: the end-to-end example.  `WeaponType` is a known (virtual) define
and `EQUAL` is spelled `==`; the rule `(damageType, EQUAL, WeaponType)` is logged as
`Added variable equal ... damageType == WeaponType`. -/
theorem C10_added_variable_line_witness :
    Sample.weaponConfig.VariablesOperators.HasTriple "damageType" "EQUAL" "WeaponType" ∧
      (Spec.env Sample.weaponRegistry Sample.operators).IsDefineType "WeaponType" = true ∧
      ({ severity := Severity.LOG, function := none, format := "Added variable %s ... %s %s %s",
         args := [FormatArg.str "equal", FormatArg.str "damageType", FormatArg.str "==",
                  FormatArg.str "WeaponType"] } : LogCall) ∈
        (Sample.weaponConfig.validate (Spec.env Sample.weaponRegistry Sample.operators)).2 ∧
      Sample.weaponConfig.LOG (Spec.env Sample.weaponRegistry Sample.operators)
          "Added variable %s ... %s %s %s"
          [FormatArg.str "equal", FormatArg.str "damageType", FormatArg.str "==",
           FormatArg.str "WeaponType"] =
        some [Effect.stdout "Added variable equal ... damageType == WeaponType\n",
              Effect.fileAppend "ReDefine.log"
                "Added variable equal ... damageType == WeaponType\n"] :=
  ⟨by decide, by decide,
    C10_added_variable_line (Spec.env Sample.weaponRegistry Sample.operators)
      Sample.weaponConfig "damageType" "EQUAL" "WeaponType" (by decide) (by decide)⟩

/-- Counterexample to C10 as stated: for the rule `(damageType, EQUAL, WeaponType)` of
the end-to-end example the validation writes the single line
`Added variable equal ... damageType == WeaponType`, and not
`equal damageType == WeaponType`. -/
theorem C10_added_prefix_counterexample :
    (Sample.weaponConfig.validate (Spec.env Sample.weaponRegistry Sample.operators)).2.map
        (Sample.weaponConfig.emit (Spec.env Sample.weaponRegistry Sample.operators)) =
      [some [Effect.stdout "Added variable equal ... damageType == WeaponType\n",
             Effect.fileAppend "ReDefine.log"
               "Added variable equal ... damageType == WeaponType\n"]] ∧
      ∀ effects ∈ (Sample.weaponConfig.validate
          (Spec.env Sample.weaponRegistry Sample.operators)).2.map
          (Sample.weaponConfig.emit (Spec.env Sample.weaponRegistry Sample.operators)),
        effects ≠ some [Effect.stdout "equal damageType == WeaponType\n",
                        Effect.fileAppend "ReDefine.log" "equal damageType == WeaponType\n"] := by
  decide

/-! ## The logger calls of the argument loop -/

theorem ProcessHeaders.validateArgument_foldl_log (env : Env) (func : String)
    (types : List String) (acc : Bool × Nat × List LogCall) (m : Nat)
    (hm : acc.2.1 = m % 2 ^ 32) :
    (types.foldl (ProcessHeaders.validateArgument env func) acc).2.2 =
      acc.2.2 ++ ProcessHeaders.argumentWarnings env func (m + 1) types := by
  induction types generalizing acc m with
  | nil => simp [ProcessHeaders.argumentWarnings]
  | cons type rest ih =>
    rw [List.foldl_cons]
    have hcount : (ProcessHeaders.validateArgument env func acc type).2.1 =
        (m + 1) % 2 ^ 32 := by
      unfold ProcessHeaders.validateArgument
      dsimp only
      split_ifs <;> simp only [hm] <;> omega
    rw [ih _ (m + 1) hcount]
    unfold ProcessHeaders.argumentWarnings
    rw [List.enumFrom_cons, List.filter_cons]
    unfold ProcessHeaders.validateArgument ProcessHeaders.invalidArgument
      ProcessHeaders.argumentWarning
    dsimp only
    by_cases hq : type = "?"
    · simp [hq]
    · cases hd : env.IsDefineType type
      · have h1 : (acc.2.1 + 1) % 4294967296 = (m + 1) % 4294967296 := by rw [hm]; omega
        simp [hq, hd, h1]
      · simp [hq, hd]

theorem ProcessHeaders.validateFunction_log (env : Env)
    (acc : StdMap (List String) × List LogCall) (func : String × List String) :
    (ProcessHeaders.validateFunction env acc func).2 =
      acc.2 ++ ProcessHeaders.functionCalls env func := by
  have hlog := ProcessHeaders.validateArgument_foldl_log env func.1 func.2 (true, 0, acc.2) 0 rfl
  have hvalid := ProcessHeaders.validateArgument_foldl_valid env func.1 func.2 (true, 0, acc.2)
  unfold ProcessHeaders.validateFunction ProcessHeaders.functionCalls
  dsimp only at *
  rw [hvalid, hlog]
  cases hv : ProcessHeaders.validArguments env func.2 <;>
    simp [ProcessHeaders.argumentsCall]

theorem ProcessHeaders.validateFunction_foldl_log (env : Env)
    (tbl : List (String × List String)) (acc : StdMap (List String) × List LogCall) :
    (tbl.foldl (ProcessHeaders.validateFunction env) acc).2 =
      acc.2 ++ tbl.flatMap (ProcessHeaders.functionCalls env) := by
  induction tbl generalizing acc with
  | nil => simp
  | cons func rest ih =>
    rw [List.foldl_cons, ih, ProcessHeaders.validateFunction_log, List.flatMap_cons,
      List.append_assoc]

theorem ReDefine.validate_log_sections (env : Env) (self : ReDefine) :
    (self.validate env).2 =
      self.VariablesOperators.triples.map
          (ProcessHeaders.operatorCall env ProcessHeaders.unknownVariable
            ProcessHeaders.addedVariable) ++
        ProcessHeaders.guessingCalls env self.VariablesGuessing ++
        self.FunctionsOperators.triples.map
          (ProcessHeaders.operatorCall env ProcessHeaders.unknownFunction
            ProcessHeaders.addedFunction) ++
        self.FunctionsArguments.entries.flatMap (ProcessHeaders.functionCalls env) ++
        ProcessHeaders.rawCalls self.Raw := by
  rw [ReDefine.validate_log, ProcessHeaders.validateFunction_foldl_log]
  rfl

theorem ReDefine.validate_log_filter (env : Env) (self : ReDefine) (p : LogCall → Bool) :
    (self.validate env).2.filter p =
      (self.VariablesOperators.triples.map
          (ProcessHeaders.operatorCall env ProcessHeaders.unknownVariable
            ProcessHeaders.addedVariable)).filter p ++
        (ProcessHeaders.guessingCalls env self.VariablesGuessing).filter p ++
        (self.FunctionsOperators.triples.map
          (ProcessHeaders.operatorCall env ProcessHeaders.unknownFunction
            ProcessHeaders.addedFunction)).filter p ++
        self.FunctionsArguments.entries.flatMap
          (fun func => (ProcessHeaders.functionCalls env func).filter p) ++
        (ProcessHeaders.rawCalls self.Raw).filter p := by
  rw [ReDefine.validate_log_sections]
  simp only [List.filter_append, List.filter_flatMap]

theorem ProcessHeaders.filter_operatorCall_nil (env : Env) (u a : String) (p : LogCall → Bool)
    (hp : ∀ c, p c = true → c.format ≠ u ∧ c.format ≠ a)
    (tbl : List (String × String × String)) :
    (tbl.map (ProcessHeaders.operatorCall env u a)).filter p = [] := by
  apply ProcessHeaders.filter_format_nil
  intro c hc
  rw [List.mem_map] at hc
  obtain ⟨t, _, rfl⟩ := hc
  cases hpc : p (ProcessHeaders.operatorCall env u a t) with
  | false => rfl
  | true =>
    rcases ProcessHeaders.operatorCall_format env u a t with h | h
    · exact absurd h (hp _ hpc).1
    · exact absurd h (hp _ hpc).2

theorem ProcessHeaders.filter_guessingCalls_nil (env : Env) (guessing : List String)
    (p : LogCall → Bool)
    (hp : ∀ c, p c = true →
      c.format ≠ ProcessHeaders.unknownGuessing ∧ c.format ≠ ProcessHeaders.addedGuessing) :
    (ProcessHeaders.guessingCalls env guessing).filter p = [] := by
  apply ProcessHeaders.filter_format_nil
  intro c hc
  cases hpc : p c with
  | false => rfl
  | true =>
    rcases ProcessHeaders.guessingCalls_format env guessing c hc with h | h
    · exact absurd h (hp _ hpc).1
    · exact absurd h (hp _ hpc).2

theorem ProcessHeaders.filter_rawCalls_nil (raw : List (String × String)) (p : LogCall → Bool)
    (hp : ∀ c, p c = true → c.format ≠ ProcessHeaders.addedRaw) :
    (ProcessHeaders.rawCalls raw).filter p = [] := by
  apply ProcessHeaders.filter_format_nil
  intro c hc
  cases hpc : p c with
  | false => rfl
  | true => exact absurd (ProcessHeaders.rawCalls_format raw c hc).2 (hp _ hpc)

theorem ProcessHeaders.argumentWarnings_mem (env : Env) (func : String) (first : Nat)
    (types : List String) (c : LogCall)
    (hc : c ∈ ProcessHeaders.argumentWarnings env func first types) :
    c.severity = Severity.WARNING ∧ c.format = ProcessHeaders.unknownArgument := by
  unfold ProcessHeaders.argumentWarnings at hc
  rw [List.mem_map] at hc
  obtain ⟨pt, _, rfl⟩ := hc
  exact ⟨rfl, rfl⟩

theorem ProcessHeaders.warnings_functionCalls (env : Env) (func : String × List String) :
    ProcessHeaders.warnings ProcessHeaders.unknownArgument
        (ProcessHeaders.functionCalls env func) =
      ProcessHeaders.argumentWarnings env func.1 1 func.2 := by
  unfold ProcessHeaders.warnings ProcessHeaders.functionCalls
  rw [List.filter_append]
  have h1 : (ProcessHeaders.argumentWarnings env func.1 1 func.2).filter
      (fun c => decide (c.severity = Severity.WARNING ∧
        c.format = ProcessHeaders.unknownArgument)) =
      ProcessHeaders.argumentWarnings env func.1 1 func.2 := by
    rw [List.filter_eq_self]
    intro c hc
    have h := ProcessHeaders.argumentWarnings_mem env _ _ _ c hc
    simp [h.1, h.2]
  rw [h1]
  split_ifs <;> simp [ProcessHeaders.argumentsCall]

theorem ProcessHeaders.logs_functionCalls (env : Env) (func : String × List String) :
    ProcessHeaders.logs ProcessHeaders.addedArguments
        (ProcessHeaders.functionCalls env func) =
      if ProcessHeaders.validArguments env func.2 = true then
        [ProcessHeaders.argumentsCall env func]
      else [] := by
  unfold ProcessHeaders.logs ProcessHeaders.functionCalls
  rw [List.filter_append]
  have h1 : (ProcessHeaders.argumentWarnings env func.1 1 func.2).filter
      (fun c => decide (c.severity = Severity.LOG ∧
        c.format = ProcessHeaders.addedArguments)) = [] := by
    apply ProcessHeaders.filter_format_nil
    intro c hc
    have h := ProcessHeaders.argumentWarnings_mem env _ _ _ c hc
    simp [h.1]
  rw [h1]
  split_ifs <;> simp [ProcessHeaders.argumentsCall]

theorem ProcessHeaders.warnings_validate_arguments (env : Env) (self : ReDefine) :
    ProcessHeaders.warnings ProcessHeaders.unknownArgument (self.validate env).2 =
      self.FunctionsArguments.entries.flatMap
        (fun func => ProcessHeaders.argumentWarnings env func.1 1 func.2) := by
  unfold ProcessHeaders.warnings
  rw [ReDefine.validate_log_filter,
    ProcessHeaders.filter_operatorCall_nil env _ _ _
      (fun c hc => by
        simp only [decide_eq_true_eq] at hc
        rw [hc.2]; exact ⟨by decide, by decide⟩),
    ProcessHeaders.filter_operatorCall_nil env _ _ _
      (fun c hc => by
        simp only [decide_eq_true_eq] at hc
        rw [hc.2]; exact ⟨by decide, by decide⟩),
    ProcessHeaders.filter_guessingCalls_nil env _ _
      (fun c hc => by
        simp only [decide_eq_true_eq] at hc
        rw [hc.2]; exact ⟨by decide, by decide⟩),
    ProcessHeaders.filter_rawCalls_nil _ _
      (fun c hc => by
        simp only [decide_eq_true_eq] at hc
        rw [hc.2]; decide)]
  simp only [List.nil_append, List.append_nil]
  congr 1
  funext func
  exact ProcessHeaders.warnings_functionCalls env func

theorem vsnprintf_unknownArgument (a b : String) (n : Nat) :
    vsnprintf MAX_LOGTEXT "unknown define type<%s> : function<%s> argument<%u>"
        [FormatArg.str a, FormatArg.str b, FormatArg.uint n] =
      some ⟨("unknown define type<" ++ c_str a ++ "> : function<" ++ c_str b ++
        "> argument<" ++ Nat.repr (n % 2 ^ 32) ++ ">").data.take 4095⟩ := by
  have h : formatted (c_str "unknown define type<%s> : function<%s> argument<%u>").data
      [FormatArg.str a, FormatArg.str b, FormatArg.uint n] =
      some ("unknown define type<".data ++ ((c_str a).data ++ ("> : function<".data ++
        ((c_str b).data ++ ("> argument<".data ++ ((Nat.repr (n % 2 ^ 32)).data ++
          (">".data ++ []))))))) := rfl
  unfold vsnprintf
  rw [h]
  simp [MAX_LOGTEXT, String.data_append]

/-- C14: the WARNING calls of the validation pass about function arguments are, function
by function in table order, one call for each position `p`, counted from 1, whose entry is
neither `?` nor a known define type, carrying the offending type, the function name and
the number `p` (an `unsigned int`: `p` itself for a list of fewer than `2 ^ 32` entries);
a position holding `?` or a known type gets no WARNING; and such a call writes the line
`WARNING unknown define type<T> : function<F> argument<p>`. -/
theorem C14_argument_warning_names_position (env : Env) (self : ReDefine) :
    ProcessHeaders.warnings ProcessHeaders.unknownArgument (self.validate env).2 =
        self.FunctionsArguments.entries.flatMap (fun func =>
          ((func.2.enumFrom 1).filter
              (fun pt => decide (pt.2 ≠ "?") && !env.IsDefineType pt.2)).map
            (fun pt =>
              { severity := Severity.WARNING, function := some ProcessHeaders.FUNCTION,
                format := "unknown define type<%s> : function<%s> argument<%u>",
                args := [FormatArg.str pt.2, FormatArg.str func.1,
                         FormatArg.uint (pt.1 % 2 ^ 32)] })) ∧
      (∀ func ∈ self.FunctionsArguments.entries, func.2.length < 2 ^ 32 →
        ∀ pt ∈ func.2.enumFrom 1, pt.1 % 2 ^ 32 = pt.1) ∧
      ∀ (func type : String) (position : Nat), ∃ effects,
        self.WARNING env (some ProcessHeaders.FUNCTION)
            "unknown define type<%s> : function<%s> argument<%u>"
            [FormatArg.str type, FormatArg.str func, FormatArg.uint position] =
          some (Effect.stdout (c_str ("WARNING " ++
              String.mk (("unknown define type<" ++ c_str type ++ "> : function<" ++
                c_str func ++ "> argument<" ++ Nat.repr (position % 2 ^ 32) ++
                ">").data.take 4095) ++
              Print.locationPart (some self) true ++ Print.currentPart env (some self)) ++
            "\n") :: effects) := by
  refine ⟨?_, ?_, ?_⟩
  · rw [ProcessHeaders.warnings_validate_arguments]
    rfl
  · intro func _ hlen pt hpt
    obtain ⟨i, x⟩ := pt
    have h := (List.mem_enumFrom hpt).2.1
    exact Nat.mod_eq_of_lt (by omega)
  · intro func type position
    have htext := vsnprintf_unknownArgument type func position
    obtain ⟨text, htext', hlen⟩ := vsnprintf_nonempty
      "unknown define type<%s> : function<%s> argument<%u>"
      [FormatArg.str type, FormatArg.str func, FormatArg.uint position]
      'u' 'n' _ rfl (by decide) (by decide) rfl
    have heq := Option.some.inj (htext'.symm.trans htext)
    subst heq
    unfold ReDefine.WARNING
    rw [Print_of_text env (some self) (some "WARNING") none _ _ true _ htext hlen]
    have hw : c_str "WARNING" = "WARNING" := by decide
    have hline : ∀ text : String,
        Print.line env (some self) (some "WARNING") none text true =
          "WARNING " ++ text ++ Print.locationPart (some self) true ++
            Print.currentPart env (some self) := by
      intro text
      simp [Print.line, hw, String.append_assoc]
    rw [hline]
    exact ⟨_, rfl⟩

/-! ## The validated tables as filtered input tables -/

theorem StdMap.triples_eq_view (m : StdMap (StdMap String)) :
    m.triples = m.view.flatMap (fun e => e.2.map (fun o => (e.1, o.1, o.2))) := by
  unfold StdMap.triples StdMap.view
  rw [List.flatMap_map]

theorem ProcessHeaders.flatMap_keptGroup (env : Env)
    (l : List (String × List (String × String))) :
    (l.filterMap (ProcessHeaders.keptGroup env)).flatMap
        (fun e => e.2.map (fun o => (e.1, o.1, o.2))) =
      (l.flatMap (fun e => e.2.map (fun o => (e.1, o.1, o.2)))).filter
        (fun t => env.IsDefineType t.2.2) := by
  induction l with
  | nil => rfl
  | cons e rest ih =>
    rw [List.filterMap_cons, List.flatMap_cons, List.filter_append, ← ih]
    have hkept : (e.2.map (fun o => (e.1, o.1, o.2))).filter (fun t => env.IsDefineType t.2.2) =
        (ProcessHeaders.keptOperators env e.2).map (fun o => (e.1, o.1, o.2)) := by
      unfold ProcessHeaders.keptOperators
      rw [List.filter_map]
      rfl
    rw [hkept]
    unfold ProcessHeaders.keptGroup
    by_cases hk : ProcessHeaders.keptOperators env e.2 = []
    · simp [hk]
    · simp [hk, List.flatMap_cons]

theorem ProcessHeaders.validateOperators_triples (env : Env) (u a : String)
    (table : StdMap (StdMap String)) :
    (ProcessHeaders.validateOperators env u a table StdMap.empty).1.triples =
      table.triples.filter (fun t => env.IsDefineType t.2.2) := by
  rw [StdMap.triples_eq_view, StdMap.triples_eq_view, ProcessHeaders.validateOperators_view,
    ProcessHeaders.flatMap_keptGroup]

theorem ProcessHeaders.logs_operatorCall (env : Env) (u a : String)
    (tbl : List (String × String × String)) :
    ProcessHeaders.logs a (tbl.map (ProcessHeaders.operatorCall env u a)) =
      (tbl.filter (fun t => env.IsDefineType t.2.2)).map (ProcessHeaders.addedCall env a) := by
  unfold ProcessHeaders.logs
  induction tbl with
  | nil => rfl
  | cons t rest ih =>
    rw [List.map_cons, List.filter_cons, List.filter_cons, ih]
    unfold ProcessHeaders.operatorCall ProcessHeaders.addedCall
    cases hd : env.IsDefineType t.2.2 <;> simp

theorem ProcessHeaders.validateGuessing_snd (env : Env) (guessing rest : List String) :
    (ProcessHeaders.validateGuessing env guessing rest).2 =
      if rest.all env.IsDefineType = true then []
      else [{ severity := Severity.WARNING, function := some ProcessHeaders.FUNCTION,
              format := ProcessHeaders.unknownGuessing, args := [] }] := by
  induction rest with
  | nil => rfl
  | cons type rest ih =>
    unfold ProcessHeaders.validateGuessing
    by_cases h : env.IsDefineType type = false
    · simp [h]
    · have h' : env.IsDefineType type = true := by
        cases hd : env.IsDefineType type
        · exact absurd hd h
        · rfl
      rw [if_neg h, ih]
      simp [h']

theorem ProcessHeaders.guessingCalls_eq (env : Env) (guessing : List String) :
    ProcessHeaders.guessingCalls env guessing =
      if guessing.all env.IsDefineType = true then
        if guessing = [] then []
        else [{ severity := Severity.LOG, function := none,
                format := ProcessHeaders.addedGuessing,
                args := [FormatArg.str (env.TextGetJoined guessing ", ")] }]
      else [{ severity := Severity.WARNING, function := some ProcessHeaders.FUNCTION,
              format := ProcessHeaders.unknownGuessing, args := [] }] := by
  unfold ProcessHeaders.guessingCalls
  rw [ProcessHeaders.validateGuessing_snd, ProcessHeaders.validateGuessing_fst]
  by_cases hall : guessing.all env.IsDefineType = true
  · simp only [hall, if_true, List.nil_append]
    by_cases hg : guessing = []
    · simp [hg]
    · have : guessing.length ≠ 0 := fun h => hg (List.length_eq_zero.1 h)
      simp [hg, this]
  · simp [hall]

theorem ProcessHeaders.functionCalls_format (env : Env) (func : String × List String)
    (c : LogCall) (hc : c ∈ ProcessHeaders.functionCalls env func) :
    c.format = ProcessHeaders.unknownArgument ∨ c.format = ProcessHeaders.addedArguments := by
  unfold ProcessHeaders.functionCalls at hc
  rcases List.mem_append.1 hc with h | h
  · left; exact (ProcessHeaders.argumentWarnings_mem env _ _ _ c h).2
  · right
    split_ifs at h
    · rw [List.mem_singleton] at h
      rw [h]; rfl
    · exact absurd h (List.not_mem_nil _)

theorem ProcessHeaders.filter_functionCalls_nil (env : Env) (p : LogCall → Bool)
    (hp : ∀ c, p c = true →
      c.format ≠ ProcessHeaders.unknownArgument ∧ c.format ≠ ProcessHeaders.addedArguments)
    (tbl : List (String × List String)) :
    tbl.flatMap (fun func => (ProcessHeaders.functionCalls env func).filter p) = [] := by
  rw [List.flatMap_eq_nil_iff]
  intro func _
  apply ProcessHeaders.filter_format_nil
  intro c hc
  cases hpc : p c with
  | false => rfl
  | true =>
    rcases ProcessHeaders.functionCalls_format env func c hc with h | h
    · exact absurd h (hp _ hpc).1
    · exact absurd h (hp _ hpc).2

theorem ProcessHeaders.logs_validate_variables (env : Env) (self : ReDefine) :
    ProcessHeaders.logs ProcessHeaders.addedVariable (self.validate env).2 =
      (self.validate env).1.VariablesOperators.triples.map
        (ProcessHeaders.addedCall env ProcessHeaders.addedVariable) := by
  rw [ReDefine.validate_VariablesOperators, ProcessHeaders.validateOperators_triples,
    ← ProcessHeaders.logs_operatorCall env ProcessHeaders.unknownVariable]
  unfold ProcessHeaders.logs
  rw [ReDefine.validate_log_filter,
    ProcessHeaders.filter_guessingCalls_nil env _ _
      (fun c hc => by
        simp only [decide_eq_true_eq] at hc
        rw [hc.2]; exact ⟨by decide, by decide⟩),
    ProcessHeaders.filter_operatorCall_nil env ProcessHeaders.unknownFunction _ _
      (fun c hc => by
        simp only [decide_eq_true_eq] at hc
        rw [hc.2]; exact ⟨by decide, by decide⟩),
    ProcessHeaders.filter_functionCalls_nil env _
      (fun c hc => by
        simp only [decide_eq_true_eq] at hc
        rw [hc.2]; exact ⟨by decide, by decide⟩),
    ProcessHeaders.filter_rawCalls_nil _ _
      (fun c hc => by
        simp only [decide_eq_true_eq] at hc
        rw [hc.2]; decide)]
  simp only [List.append_nil]

theorem ProcessHeaders.logs_validate_functions (env : Env) (self : ReDefine) :
    ProcessHeaders.logs ProcessHeaders.addedFunction (self.validate env).2 =
      (self.validate env).1.FunctionsOperators.triples.map
        (ProcessHeaders.addedCall env ProcessHeaders.addedFunction) := by
  rw [ReDefine.validate_FunctionsOperators, ProcessHeaders.validateOperators_triples,
    ← ProcessHeaders.logs_operatorCall env ProcessHeaders.unknownFunction]
  unfold ProcessHeaders.logs
  rw [ReDefine.validate_log_filter,
    ProcessHeaders.filter_guessingCalls_nil env _ _
      (fun c hc => by
        simp only [decide_eq_true_eq] at hc
        rw [hc.2]; exact ⟨by decide, by decide⟩),
    ProcessHeaders.filter_operatorCall_nil env ProcessHeaders.unknownVariable _ _
      (fun c hc => by
        simp only [decide_eq_true_eq] at hc
        rw [hc.2]; exact ⟨by decide, by decide⟩),
    ProcessHeaders.filter_functionCalls_nil env _
      (fun c hc => by
        simp only [decide_eq_true_eq] at hc
        rw [hc.2]; exact ⟨by decide, by decide⟩),
    ProcessHeaders.filter_rawCalls_nil _ _
      (fun c hc => by
        simp only [decide_eq_true_eq] at hc
        rw [hc.2]; decide)]
  simp only [List.append_nil, List.nil_append]

theorem ProcessHeaders.logs_validate_arguments (env : Env) (self : ReDefine) :
    ProcessHeaders.logs ProcessHeaders.addedArguments (self.validate env).2 =
      (self.validate env).1.FunctionsArguments.entries.map
        (ProcessHeaders.argumentsCall env) := by
  rw [ReDefine.validate_FunctionsArguments]
  have hflat : ∀ tbl : List (String × List String),
      tbl.flatMap (fun func => ProcessHeaders.logs ProcessHeaders.addedArguments
          (ProcessHeaders.functionCalls env func)) =
        (tbl.filter (fun func => ProcessHeaders.validArguments env func.2)).map
          (ProcessHeaders.argumentsCall env) := by
    intro tbl
    induction tbl with
    | nil => rfl
    | cons func rest ih =>
      rw [List.flatMap_cons, ih, ProcessHeaders.logs_functionCalls, List.filter_cons]
      cases hv : ProcessHeaders.validArguments env func.2 <;> simp
  rw [← hflat]
  unfold ProcessHeaders.logs
  rw [ReDefine.validate_log_filter,
    ProcessHeaders.filter_guessingCalls_nil env _ _
      (fun c hc => by
        simp only [decide_eq_true_eq] at hc
        rw [hc.2]; exact ⟨by decide, by decide⟩),
    ProcessHeaders.filter_operatorCall_nil env ProcessHeaders.unknownVariable _ _
      (fun c hc => by
        simp only [decide_eq_true_eq] at hc
        rw [hc.2]; exact ⟨by decide, by decide⟩),
    ProcessHeaders.filter_operatorCall_nil env ProcessHeaders.unknownFunction _ _
      (fun c hc => by
        simp only [decide_eq_true_eq] at hc
        rw [hc.2]; exact ⟨by decide, by decide⟩),
    ProcessHeaders.filter_rawCalls_nil _ _
      (fun c hc => by
        simp only [decide_eq_true_eq] at hc
        rw [hc.2]; decide)]
  simp only [List.append_nil, List.nil_append]

/-- C15: the logger calls of one validation pass are the calls for the variable triples
in table order (a WARNING or a LOG for each triple), then at most one call for the guess
list, then the calls for the function-operator triples in table order, then the calls
for the function-argument lists function by function in table order, then the calls for
the raw entries in order; and the LOG calls of the accepted entries of each table are
exactly the entries of the validated table, in its order. -/
theorem C15_diagnostics_in_table_order (env : Env) (self : ReDefine) :
    (self.validate env).2 =
        self.VariablesOperators.triples.map
            (ProcessHeaders.operatorCall env ProcessHeaders.unknownVariable
              ProcessHeaders.addedVariable) ++
          ProcessHeaders.guessingCalls env self.VariablesGuessing ++
          self.FunctionsOperators.triples.map
            (ProcessHeaders.operatorCall env ProcessHeaders.unknownFunction
              ProcessHeaders.addedFunction) ++
          self.FunctionsArguments.entries.flatMap (ProcessHeaders.functionCalls env) ++
          ProcessHeaders.rawCalls self.Raw ∧
      (ProcessHeaders.guessingCalls env self.VariablesGuessing).length ≤ 1 ∧
      ProcessHeaders.logs ProcessHeaders.addedVariable (self.validate env).2 =
        (self.validate env).1.VariablesOperators.triples.map (fun t =>
          { severity := Severity.LOG, function := none,
            format := "Added variable %s ... %s %s %s",
            args := [FormatArg.str (env.TextGetLower t.2.1), FormatArg.str t.1,
                     FormatArg.str (env.GetOperator t.2.1), FormatArg.str t.2.2] }) ∧
      ProcessHeaders.logs ProcessHeaders.addedFunction (self.validate env).2 =
        (self.validate env).1.FunctionsOperators.triples.map (fun t =>
          { severity := Severity.LOG, function := none,
            format := "Added function %s ... %s(...) %s %s",
            args := [FormatArg.str (env.TextGetLower t.2.1), FormatArg.str t.1,
                     FormatArg.str (env.GetOperator t.2.1), FormatArg.str t.2.2] }) ∧
      ProcessHeaders.logs ProcessHeaders.addedArguments (self.validate env).2 =
        (self.validate env).1.FunctionsArguments.entries.map (fun func =>
          { severity := Severity.LOG, function := none,
            format := "Added function ... %s( %s )",
            args := [FormatArg.str func.1,
                     FormatArg.str (env.TextGetJoined func.2 ", ")] }) ∧
      ProcessHeaders.logs ProcessHeaders.addedRaw (self.validate env).2 =
        (self.validate env).1.Raw.map (fun e =>
          { severity := Severity.LOG, function := none, format := "Added raw ... %s",
            args := [FormatArg.str e.1] }) := by
  refine ⟨ReDefine.validate_log_sections env self, ?_,
    ProcessHeaders.logs_validate_variables env self,
    ProcessHeaders.logs_validate_functions env self,
    ProcessHeaders.logs_validate_arguments env self, ?_⟩
  · rw [ProcessHeaders.guessingCalls_eq]
    split_ifs <;> simp
  · rw [ProcessHeaders.logs_validate_raw]
    rfl

/-! ## Validating validated tables -/

theorem StdMap.eq_of_view_eq {a b : StdMap (StdMap String)} (h : a.view = b.view) : a = b := by
  apply StdMap.ext_entries
  unfold StdMap.view at h
  have hinj : Function.Injective (fun e : String × StdMap String => (e.1, e.2.entries)) := by
    intro x y hxy
    simp only [Prod.mk.injEq] at hxy
    exact Prod.ext hxy.1 (StdMap.ext_entries hxy.2)
  exact List.map_injective_iff.2 hinj h

theorem ProcessHeaders.keptGroup_of_kept (env : Env) (e e' : String × List (String × String))
    (h : ProcessHeaders.keptGroup env e = some e') :
    ProcessHeaders.keptGroup env e' = some e' := by
  unfold ProcessHeaders.keptGroup at h
  split_ifs at h with hk
  simp only [Option.some.injEq] at h
  subst h
  have hidem : ProcessHeaders.keptOperators env (ProcessHeaders.keptOperators env e.2) =
      ProcessHeaders.keptOperators env e.2 := by
    unfold ProcessHeaders.keptOperators
    rw [List.filter_filter]
    simp
  unfold ProcessHeaders.keptGroup
  simp only [hidem, if_neg hk]

theorem ProcessHeaders.filterMap_keptGroup_idem (env : Env)
    (l : List (String × List (String × String))) :
    (l.filterMap (ProcessHeaders.keptGroup env)).filterMap (ProcessHeaders.keptGroup env) =
      l.filterMap (ProcessHeaders.keptGroup env) := by
  induction l with
  | nil => rfl
  | cons e rest ih =>
    rw [List.filterMap_cons]
    cases hk : ProcessHeaders.keptGroup env e with
    | none => exact ih
    | some e' =>
      simp only
      rw [List.filterMap_cons, ProcessHeaders.keptGroup_of_kept env e e' hk, ih]

theorem ProcessHeaders.validateOperators_idem (env : Env) (u a u' a' : String)
    (table : StdMap (StdMap String)) :
    (ProcessHeaders.validateOperators env u' a'
        (ProcessHeaders.validateOperators env u a table StdMap.empty).1 StdMap.empty).1 =
      (ProcessHeaders.validateOperators env u a table StdMap.empty).1 := by
  apply StdMap.eq_of_view_eq
  rw [ProcessHeaders.validateOperators_view, ProcessHeaders.validateOperators_view,
    ProcessHeaders.filterMap_keptGroup_idem]

theorem ProcessHeaders.argumentWarnings_of_valid (env : Env) (func : String) (first : Nat)
    (types : List String) (h : ProcessHeaders.validArguments env types = true) :
    ProcessHeaders.argumentWarnings env func first types = [] := by
  unfold ProcessHeaders.argumentWarnings
  have hnil : (types.enumFrom first).filter
      (fun pt => ProcessHeaders.invalidArgument env pt.2) = [] := by
    induction types generalizing first with
    | nil => rfl
    | cons type rest ih =>
      unfold ProcessHeaders.validArguments at h ih
      rw [List.all_cons, Bool.and_eq_true] at h
      rw [List.enumFrom_cons, List.filter_cons, ih (first + 1) h.2]
      have hinv : ProcessHeaders.invalidArgument env type = false := by
        unfold ProcessHeaders.invalidArgument
        by_cases hq : type = "?"
        · simp [hq]
        · have hd : env.IsDefineType type = true := by simpa [hq] using h.1
          simp [hd]
      simp [hinv]
  rw [hnil]
  rfl

theorem ReDefine.validate_guessing_all (env : Env) (self : ReDefine) :
    (self.validate env).1.VariablesGuessing.all env.IsDefineType = true := by
  rw [ReDefine.validate_VariablesGuessing]
  split_ifs with h
  · exact h
  · rfl

/-- C16: validating again the tables that a validation pass produced, with the same
define types, leaves the variable, guess, function-operator, function-argument and raw
tables unchanged and makes no WARNING call. -/
theorem C16_validation_idempotent (env : Env) (self : ReDefine) :
    ((self.validate env).1.validate env).1.VariablesOperators =
        (self.validate env).1.VariablesOperators ∧
      ((self.validate env).1.validate env).1.VariablesGuessing =
        (self.validate env).1.VariablesGuessing ∧
      ((self.validate env).1.validate env).1.FunctionsOperators =
        (self.validate env).1.FunctionsOperators ∧
      ((self.validate env).1.validate env).1.FunctionsArguments =
        (self.validate env).1.FunctionsArguments ∧
      ((self.validate env).1.validate env).1.Raw = (self.validate env).1.Raw ∧
      ∀ call ∈ ((self.validate env).1.validate env).2, call.severity ≠ Severity.WARNING := by
  refine ⟨?_, ?_, ?_, ?_, rfl, ?_⟩
  · rw [ReDefine.validate_VariablesOperators, ReDefine.validate_VariablesOperators]
    exact ProcessHeaders.validateOperators_idem env _ _ _ _ _
  · rw [ReDefine.validate_VariablesGuessing, if_pos (ReDefine.validate_guessing_all env self)]
  · rw [ReDefine.validate_FunctionsOperators, ReDefine.validate_FunctionsOperators]
    exact ProcessHeaders.validateOperators_idem env _ _ _ _ _
  · apply StdMap.ext_entries
    rw [ReDefine.validate_FunctionsArguments, ReDefine.validate_FunctionsArguments,
      List.filter_filter]
    simp
  · intro call hcall
    rw [ReDefine.validate_log_sections] at hcall
    simp only [List.mem_append] at hcall
    rcases hcall with (((h | h) | h) | h) | h
    · rw [List.mem_map] at h
      obtain ⟨t, ht, rfl⟩ := h
      rw [ReDefine.validate_VariablesOperators, ProcessHeaders.validateOperators_triples,
        List.mem_filter] at ht
      unfold ProcessHeaders.operatorCall
      simp [ht.2]
    · rw [ProcessHeaders.guessingCalls_eq, if_pos (ReDefine.validate_guessing_all env self)] at h
      split_ifs at h
      · exact absurd h (List.not_mem_nil _)
      · rw [List.mem_singleton] at h
        rw [h]
        simp
    · rw [List.mem_map] at h
      obtain ⟨t, ht, rfl⟩ := h
      rw [ReDefine.validate_FunctionsOperators, ProcessHeaders.validateOperators_triples,
        List.mem_filter] at ht
      unfold ProcessHeaders.operatorCall
      simp [ht.2]
    · rw [List.mem_flatMap] at h
      obtain ⟨func, hfunc, hc⟩ := h
      rw [ReDefine.validate_FunctionsArguments, List.mem_filter] at hfunc
      unfold ProcessHeaders.functionCalls at hc
      rw [ProcessHeaders.argumentWarnings_of_valid env _ _ _ hfunc.2, if_pos hfunc.2,
        List.nil_append, List.mem_singleton] at hc
      rw [hc]
      simp [ProcessHeaders.argumentsCall]
    · rw [(ProcessHeaders.rawCalls_format _ call h).1]
      simp

/-! ## Keys of the validated operator tables -/

theorem ProcessHeaders.validateOperators_find (env : Env) (u a : String)
    (table : StdMap (StdMap String)) (k : String) (kept : StdMap String)
    (h : (ProcessHeaders.validateOperators env u a table StdMap.empty).1.find k = some kept) :
    kept.entries ≠ [] ∧ ∃ ops, table.find k = some ops ∧
      kept.entries = ops.entries.filter (fun e => env.IsDefineType e.2) := by
  unfold StdMap.find at h
  rw [StdMap.findEntries_eq_some_iff _ _ _
    (ProcessHeaders.validateOperators env u a table StdMap.empty).1.ordered] at h
  have hview : (k, kept.entries) ∈
      (ProcessHeaders.validateOperators env u a table StdMap.empty).1.view := by
    unfold StdMap.view
    exact List.mem_map.2 ⟨(k, kept), h, rfl⟩
  rw [ProcessHeaders.validateOperators_view, List.mem_filterMap] at hview
  obtain ⟨e, he, hkeep⟩ := hview
  unfold ProcessHeaders.keptGroup at hkeep
  split_ifs at hkeep with hk
  simp only [Option.some.injEq, Prod.mk.injEq] at hkeep
  obtain ⟨hkey, hentries⟩ := hkeep
  unfold StdMap.view at he
  rw [List.mem_map] at he
  obtain ⟨⟨k', ops⟩, hmem, heq⟩ := he
  subst heq
  simp only at hkey hentries hk
  subst hkey
  refine ⟨?_, ops, ?_, ?_⟩
  · rw [← hentries]; exact hk
  · unfold StdMap.find
    exact (StdMap.findEntries_eq_some_iff _ _ _ table.ordered).2 hmem
  · rw [← hentries]; rfl

theorem ProcessHeaders.validateOperators_find_none (env : Env) (u a : String)
    (table : StdMap (StdMap String)) (k : String) (ops : StdMap String)
    (h : table.find k = some ops) (hall : ∀ e ∈ ops.entries, env.IsDefineType e.2 = false) :
    (ProcessHeaders.validateOperators env u a table StdMap.empty).1.find k = none := by
  cases hf : (ProcessHeaders.validateOperators env u a table StdMap.empty).1.find k with
  | none => rfl
  | some kept =>
    obtain ⟨hne, ops', hfind, hentries⟩ :=
      ProcessHeaders.validateOperators_find env u a table k kept hf
    rw [h] at hfind
    have hops : ops = ops' := Option.some.inj hfind
    subst hops
    have hnil : ops.entries.filter (fun e => env.IsDefineType e.2) = [] := by
      apply List.filter_eq_nil_iff.2
      intro e he
      rw [hall e he]
      exact Bool.false_ne_true
    exact absurd (hentries.trans hnil) hne

/-- C17: a variable of the input table none of whose triples has a known type is not a
key of the validated variable table, and every key of the validated variable table is a
key of the input table mapped to the non-empty map of its operator entries with a known
type; likewise for the functions of the function-operator table. -/
theorem C17_validated_keys_have_operators (env : Env) (self : ReDefine) :
    (∀ (var : String) (ops : StdMap String), self.VariablesOperators.find var = some ops →
        (∀ e ∈ ops.entries, env.IsDefineType e.2 = false) →
        (self.validate env).1.VariablesOperators.find var = none) ∧
      (∀ (var : String) (kept : StdMap String),
        (self.validate env).1.VariablesOperators.find var = some kept →
        kept.entries ≠ [] ∧ ∃ ops, self.VariablesOperators.find var = some ops ∧
          kept.entries = ops.entries.filter (fun e => env.IsDefineType e.2)) ∧
      (∀ (function : String) (ops : StdMap String),
        self.FunctionsOperators.find function = some ops →
        (∀ e ∈ ops.entries, env.IsDefineType e.2 = false) →
        (self.validate env).1.FunctionsOperators.find function = none) ∧
      (∀ (function : String) (kept : StdMap String),
        (self.validate env).1.FunctionsOperators.find function = some kept →
        kept.entries ≠ [] ∧ ∃ ops, self.FunctionsOperators.find function = some ops ∧
          kept.entries = ops.entries.filter (fun e => env.IsDefineType e.2)) := by
  rw [ReDefine.validate_VariablesOperators, ReDefine.validate_FunctionsOperators]
  exact ⟨fun var ops h hall =>
      ProcessHeaders.validateOperators_find_none env _ _ _ var ops h hall,
    fun var kept h => ProcessHeaders.validateOperators_find env _ _ _ var kept h,
    fun function ops h hall =>
      ProcessHeaders.validateOperators_find_none env _ _ _ function ops h hall,
    fun function kept h => ProcessHeaders.validateOperators_find env _ _ _ function kept h⟩

/-! ## `ReadFile` -/

theorem ReadFile.loop_stuck (fuel : Nat) (s : IfStream) (line : String) (lines : List String)
    (heof : s.eofbit = false) (hfail : s.failbit = true) :
    ReadFile.loop fuel s line lines = none := by
  induction fuel generalizing s line lines with
  | zero => rfl
  | succ fuel ih =>
    unfold ReadFile.loop
    have hgood : s.good = false := by simp [IfStream.good, hfail]
    have hget : s.getline line = ({ s with failbit := true }, line) := by
      simp [IfStream.getline, hgood]
    simp only [IfStream.eof, heof, Bool.false_eq_true, if_false, hget]
    exact ih _ _ _ rfl rfl

theorem ReDefine.ReadFile_short (files : String → Option (List Char)) (fuel : Nat)
    (filename : String) (prior : List String) (content : List Char)
    (hopen : files filename = some content) (hshort : content.length < 3) :
    ReDefine.ReadFile files fuel filename prior = none := by
  unfold ReDefine.ReadFile
  simp only [hopen]
  have htake : (content.take 3).length < 3 := by
    rw [List.length_take]; omega
  have hread : (IfStream.mk content content false false).read 3 =
      (IfStream.mk content (content.drop 3) true true, content.take 3) := by
    simp [IfStream.read, IfStream.good, hshort]
  have hbom : ReadFile.bom (content.take 3) ≠
      [Char.ofNat 0xEF, Char.ofNat 0xBB, Char.ofNat 0xBF] := by
    unfold ReadFile.bom
    match content, hshort with
    | [], _ => decide
    | [a], _ => simp
    | [a, b], _ => simp
  simp only [hread, hbom, ne_eq, not_false_eq_true, if_true]
  rw [ReadFile.loop_stuck fuel _ "" [] (by simp [IfStream.seekg_beg])
    (by simp [IfStream.seekg_beg])]

theorem ReDefine.ReadFile_unopened (files : String → Option (List Char)) (fuel : Nat)
    (filename : String) (prior : List String) (hopen : files filename = none) :
    ReDefine.ReadFile files fuel filename prior =
      some (false, [],
        [{ severity := Severity.WARNING, function := none, format := "cannot read file<%s>",
           args := [FormatArg.str filename] }]) := by
  unfold ReDefine.ReadFile
  simp only [hopen]

theorem ReadFile.splitLines_lf (rest : List Char) :
    ReadFile.splitLines (Char.ofNat 10 :: rest) = [] :: ReadFile.splitLines rest := by
  rw [ReadFile.splitLines]
  simp

theorem ReadFile.splitLines_cons (c : Char) (rest : List Char) (hc : c ≠ Char.ofNat 10) :
    ReadFile.splitLines (c :: rest) =
      (c :: (ReadFile.splitLines rest).headD []) :: (ReadFile.splitLines rest).tail := by
  rw [ReadFile.splitLines]
  simp [hc]

theorem IfStream.untilDelim_lf (rest : List Char) :
    IfStream.untilDelim (Char.ofNat 10 :: rest) = ([], some rest) := by
  rw [IfStream.untilDelim]
  simp

theorem IfStream.untilDelim_cons (c : Char) (rest : List Char) (hc : c ≠ Char.ofNat 10) :
    IfStream.untilDelim (c :: rest) =
      (c :: (IfStream.untilDelim rest).1, (IfStream.untilDelim rest).2) := by
  rw [IfStream.untilDelim]
  simp [hc]

theorem IfStream.untilDelim_some (u rest : List Char)
    (h : (IfStream.untilDelim u).2 = some rest) :
    ReadFile.splitLines u = (IfStream.untilDelim u).1 :: ReadFile.splitLines rest ∧
      rest.length < u.length := by
  induction u with
  | nil => simp [IfStream.untilDelim] at h
  | cons c tail ih =>
    by_cases hc : c = Char.ofNat 10
    · subst hc
      rw [IfStream.untilDelim_lf] at h ⊢
      simp only [Option.some.injEq] at h
      subst h
      rw [ReadFile.splitLines_lf]
      exact ⟨rfl, Nat.lt_succ_self _⟩
    · rw [IfStream.untilDelim_cons c tail hc] at h ⊢
      obtain ⟨hsplit, hlen⟩ := ih h
      rw [ReadFile.splitLines_cons c tail hc, hsplit]
      exact ⟨rfl, Nat.lt_succ_of_lt hlen⟩

theorem IfStream.untilDelim_none (u : List Char) (h : (IfStream.untilDelim u).2 = none) :
    ReadFile.splitLines u = [(IfStream.untilDelim u).1] := by
  induction u with
  | nil => rfl
  | cons c tail ih =>
    by_cases hc : c = Char.ofNat 10
    · subst hc
      rw [IfStream.untilDelim_lf] at h
      simp at h
    · rw [IfStream.untilDelim_cons c tail hc] at h ⊢
      rw [ReadFile.splitLines_cons c tail hc, ih h]
      rfl

theorem IfStream.untilDelim_no_lf (u : List Char) :
    (IfStream.untilDelim u).1.filter (fun x => x != Char.ofNat 10) =
      (IfStream.untilDelim u).1 := by
  induction u with
  | nil => rfl
  | cons c tail ih =>
    by_cases hc : c = Char.ofNat 10
    · subst hc
      rw [IfStream.untilDelim_lf]
      rfl
    · rw [IfStream.untilDelim_cons c tail hc]
      simp only
      rw [List.filter_cons]
      have : (c != Char.ofNat 10) = true := by simpa using hc
      rw [this, if_pos rfl, ih]

theorem ReadFile.erase_untilDelim (u : List Char) :
    ReadFile.erase (ReadFile.erase ⟨(IfStream.untilDelim u).1⟩ (Char.ofNat 13))
        (Char.ofNat 10) =
      String.mk ((IfStream.untilDelim u).1.filter (fun x => x != Char.ofNat 13)) := by
  unfold ReadFile.erase
  simp only
  congr 1
  rw [List.filter_comm, IfStream.untilDelim_no_lf]

theorem ReadFile.loop_good (fuel : Nat) (s : IfStream) (line : String) (lines : List String)
    (heof : s.eofbit = false) (hfail : s.failbit = false)
    (hfuel : s.unread.length + 2 ≤ fuel) :
    ReadFile.loop fuel s line lines =
      some (lines ++ (ReadFile.splitLines s.unread).map
        (fun l => String.mk (l.filter (fun x => x != Char.ofNat 13)))) := by
  induction fuel generalizing s line lines with
  | zero => omega
  | succ fuel ih =>
    unfold ReadFile.loop
    have hgood : s.good = true := by simp [IfStream.good, heof, hfail]
    simp only [IfStream.eof, heof, Bool.false_eq_true, if_false]
    cases hrest : (IfStream.untilDelim s.unread).2 with
    | some rest =>
      obtain ⟨hsplit, hlen⟩ := IfStream.untilDelim_some s.unread rest hrest
      have hget : s.getline line =
          (IfStream.mk s.content rest s.eofbit s.failbit, ⟨(IfStream.untilDelim s.unread).1⟩) := by
        simp [IfStream.getline, hgood, hrest]
      rw [hget]
      simp only
      rw [ih (IfStream.mk s.content rest s.eofbit s.failbit) _ _ heof hfail
        (by simp only; omega), ReadFile.erase_untilDelim, hsplit]
      simp
    | none =>
      have hsplit := IfStream.untilDelim_none s.unread hrest
      have hget : s.getline line =
          (IfStream.mk s.content [] true (decide ((IfStream.untilDelim s.unread).1 = [])),
            ⟨(IfStream.untilDelim s.unread).1⟩) := by
        simp [IfStream.getline, hgood, hrest]
      rw [hget]
      simp only
      have hfuel' : fuel = (fuel - 1) + 1 := by omega
      rw [hfuel']
      unfold ReadFile.loop
      simp only [IfStream.eof, if_true]
      rw [ReadFile.erase_untilDelim, hsplit]
      simp

theorem ReDefine.ReadFile_of_three (files : String → Option (List Char)) (filename : String)
    (prior : List String) (content : List Char) (hopen : files filename = some content)
    (hlong : 3 ≤ content.length) :
    ReDefine.ReadFile files (content.length + 2) filename prior =
      some (true, ReadFile.linesOf content, []) := by
  unfold ReDefine.ReadFile
  simp only [hopen]
  have hread : (IfStream.mk content content false false).read 3 =
      (IfStream.mk content (content.drop 3) false false, content.take 3) := by
    have : ¬ content.length < 3 := by omega
    simp [IfStream.read, IfStream.good, this]
  have hbom : ReadFile.bom (content.take 3) = content.take 3 := by
    unfold ReadFile.bom
    rw [List.take_append_of_le_length (by rw [List.length_take]; omega)]
    simp
  simp only [hread, hbom]
  unfold ReadFile.linesOf ReadFile.afterBom
  by_cases hb : content.take 3 = [Char.ofNat 0xEF, Char.ofNat 0xBB, Char.ofNat 0xBF]
  · simp only [hb, ne_eq, not_true_eq_false, if_false, if_true]
    rw [ReadFile.loop_good _ _ _ _ rfl rfl (by simp only [List.length_drop]; omega)]
    simp
  · simp only [hb, ne_eq, not_false_eq_true, if_true, if_false]
    rw [ReadFile.loop_good _ _ _ _ (by simp [IfStream.seekg_beg])
      (by simp [IfStream.seekg_beg]) (by simp [IfStream.seekg_beg])]
    simp [IfStream.seekg_beg]

/-! ## The lines of the three logging members -/

theorem ReDefine.LOG_of_text (env : Env) (self : ReDefine) (format : String)
    (args : List FormatArg) (text : String)
    (htext : vsnprintf MAX_LOGTEXT format args = some text) (hlen : StrLength text ≠ 0) :
    self.LOG env format args =
      some (Print.effects env "ReDefine.log" (text ++ Print.currentSuffix env self)) := by
  unfold ReDefine.LOG
  rw [Print_of_text env (some self) none none _ _ false _ htext hlen]
  simp [Print.effects, Print.line, Print.locationPart, Print.currentPart, Print.logName,
    Print.currentSuffix]

theorem ReDefine.WARNING_of_text (env : Env) (self : ReDefine) (func : Option String)
    (format : String) (args : List FormatArg) (text : String)
    (htext : vsnprintf MAX_LOGTEXT format args = some text) (hlen : StrLength text ≠ 0) :
    self.WARNING env func format args =
      some (Print.effects env "ReDefine.WARNING.log" ("WARNING " ++ text ++
        (if self.Status.Current.File ≠ "" then Print.location self.Status.Current else "") ++
        Print.currentSuffix env self)) := by
  unfold ReDefine.WARNING
  rw [Print_of_text env (some self) (some "WARNING") none _ _ true _ htext hlen]
  have hw : c_str "WARNING" = "WARNING" := by decide
  have hlog : Print.logName (some "WARNING") = "ReDefine.WARNING.log" := by decide
  rw [hlog]
  unfold Print.effects Print.line Print.locationPart Print.currentPart Print.currentSuffix
  simp only [hw, Print.location_eq]
  by_cases hf : self.Status.Current.File = "" <;>
    by_cases hn : self.Status.Current.LineNumber % 2 ^ 32 = 0 <;>
    simp [hf, hn, String.append_assoc]

theorem ReDefine.DEBUG_of_text (env : Env) (self : ReDefine) (function : Option String)
    (format : String) (args : List FormatArg) (text : String)
    (htext : vsnprintf MAX_LOGTEXT format args = some text) (hlen : StrLength text ≠ 0) :
    self.DEBUG env function format args =
      some (Print.effects env "ReDefine.DEBUG.log" ("DEBUG " ++ Print.functionTag function ++
        text ++
        (if self.Status.Current.File ≠ "" then Print.location self.Status.Current else "") ++
        Print.currentSuffix env self)) := by
  unfold ReDefine.DEBUG
  rw [Print_of_text env (some self) (some "DEBUG") function _ _ true _ htext hlen]
  have hw : c_str "DEBUG" = "DEBUG" := by decide
  have hlog : Print.logName (some "DEBUG") = "ReDefine.DEBUG.log" := by decide
  rw [hlog]
  unfold Print.effects Print.line Print.locationPart Print.currentPart Print.currentSuffix
    Print.functionTag
  simp only [hw, Print.location_eq]
  cases function <;>
    by_cases hf : self.Status.Current.File = "" <;>
    by_cases hn : self.Status.Current.LineNumber % 2 ^ 32 = 0 <;>
    simp [hf, hn, String.append_assoc]

/-- C19: a `LOG` line is the message followed by the current-line suffix only (no
location suffix, whatever the current file and line number are; the suffix `" :: "` and
the trimmed current line exactly when the current line is not empty); a `WARNING` line
and a `DEBUG` line have the location suffix, which starts with `" : file"`, between the
message and the current-line suffix exactly when the current file is not empty; and after
`Status.Clear()` the `LOG`, `WARNING` and `DEBUG` lines have neither suffix. -/
theorem C19_suffixes_by_severity (env : Env) (self : ReDefine) (function : Option String)
    (format : String) (args : List FormatArg) (text : String)
    (htext : vsnprintf MAX_LOGTEXT format args = some text) (hlen : StrLength text ≠ 0) :
    self.LOG env format args =
        some (Print.effects env "ReDefine.log"
          (text ++
            (if self.Status.Current.Line ≠ "" then
              " :: " ++ env.TextGetTrimmed self.Status.Current.Line
            else ""))) ∧
      self.WARNING env function format args =
        some (Print.effects env "ReDefine.WARNING.log"
          ("WARNING " ++ text ++
            (if self.Status.Current.File ≠ "" then Print.location self.Status.Current
             else "") ++
            (if self.Status.Current.Line ≠ "" then
              " :: " ++ env.TextGetTrimmed self.Status.Current.Line
            else ""))) ∧
      self.DEBUG env function format args =
        some (Print.effects env "ReDefine.DEBUG.log"
          ("DEBUG " ++ Print.functionTag function ++ text ++
            (if self.Status.Current.File ≠ "" then Print.location self.Status.Current
             else "") ++
            (if self.Status.Current.Line ≠ "" then
              " :: " ++ env.TextGetTrimmed self.Status.Current.Line
            else ""))) ∧
      (∃ rest, Print.location self.Status.Current = " : file" ++ rest) ∧
      ({ self with Status := self.Status.Clear } : ReDefine).LOG env format args =
        some (Print.effects env "ReDefine.log" text) ∧
      ({ self with Status := self.Status.Clear } : ReDefine).WARNING env function format args =
        some (Print.effects env "ReDefine.WARNING.log" ("WARNING " ++ text)) ∧
      ({ self with Status := self.Status.Clear } : ReDefine).DEBUG env function format args =
        some (Print.effects env "ReDefine.DEBUG.log"
          ("DEBUG " ++ Print.functionTag function ++ text)) := by
  refine ⟨ReDefine.LOG_of_text env self format args text htext hlen,
    ReDefine.WARNING_of_text env self function format args text htext hlen,
    ReDefine.DEBUG_of_text env self function format args text htext hlen, ?_, ?_, ?_, ?_⟩
  · rw [Print.location_eq]
    split_ifs
    · exact ⟨"<" ++ self.Status.Current.File ++ ">", by
        simp only [← String.append_assoc]; rfl⟩
    · exact ⟨"line<" ++ self.Status.Current.File ++ ":" ++
        Nat.repr (self.Status.Current.LineNumber % 2 ^ 32) ++ ">", by
        simp only [← String.append_assoc]; rfl⟩
  · rw [ReDefine.LOG_of_text env _ format args text htext hlen]
    simp [Print.currentSuffix, ReDefine.SStatus.Clear, ReDefine.SStatus.SCurrent.Clear]
  · rw [ReDefine.WARNING_of_text env _ function format args text htext hlen]
    simp [Print.currentSuffix, ReDefine.SStatus.Clear, ReDefine.SStatus.SCurrent.Clear]
  · rw [ReDefine.DEBUG_of_text env _ function format args text htext hlen]
    simp [Print.currentSuffix, ReDefine.SStatus.Clear, ReDefine.SStatus.SCurrent.Clear]

/-- Witness of C19: the message `m` while line 3 of `a.h`, with text ` x = 1`, is
current: the `LOG` line has the current-line suffix only, the `WARNING` line both. -/
theorem C19_suffixes_by_severity_witness :
    vsnprintf MAX_LOGTEXT "m" [] = some "m" ∧ StrLength "m" ≠ 0 ∧
      (Sample.state "a.h" " x = 1" 3).LOG (Spec.env Sample.noDefines Sample.operators)
          "m" [] =
        some [Effect.stdout "m :: x = 1\n", Effect.fileAppend "ReDefine.log" "m :: x = 1\n"] ∧
      (Sample.state "a.h" " x = 1" 3).WARNING (Spec.env Sample.noDefines Sample.operators)
          none "m" [] =
        some [Effect.stdout "WARNING m : fileline<a.h:3> :: x = 1\n",
              Effect.fileAppend "ReDefine.WARNING.log"
                "WARNING m : fileline<a.h:3> :: x = 1\n"] :=
  ⟨by decide, by decide,
    (C19_suffixes_by_severity (Spec.env Sample.noDefines Sample.operators)
      (Sample.state "a.h" " x = 1" 3) none "m" [] "m" (by decide) (by decide)).1,
    (C19_suffixes_by_severity (Spec.env Sample.noDefines Sample.operators)
      (Sample.state "a.h" " x = 1" 3) none "m" [] "m" (by decide) (by decide)).2.1⟩

/-! ## `ReadConfig` -/

theorem ReDefine.ReadConfig_eq_run (readers : ConfigReaders) (self : ReDefine)
    (defines variablePrefix functionPrefix raw : String) :
    ReDefine.ReadConfig readers self defines variablePrefix functionPrefix raw =
      ReadConfig.run
        [(readers.ReadConfigDefines, ConfigReader.Defines, defines),
         (readers.ReadConfigVariables, ConfigReader.Variables, variablePrefix),
         (readers.ReadConfigFunctions, ConfigReader.Functions, functionPrefix),
         (readers.ReadConfigRaw, ConfigReader.Raw, raw)] (self, []) := by
  simp only [ReDefine.ReadConfig, ReadConfig.run]

theorem ReadConfig.run_spec (readers : ConfigReaders)
    (steps : List ((String → ReDefine → Bool × ReDefine) × ConfigReader × String))
    (hsteps : ∀ step ∈ steps, step.1 = readers.get step.2.1)
    (acc : ReDefine × List ReaderCall) :
    ∃ calls, (ReadConfig.run steps acc).2.2 = acc.2 ++ calls ∧
      calls.map (fun call => (call.reader, call.name)) <+:
        ReadConfig.named (steps.map (fun step => step.2)) ∧
      ((ReadConfig.run steps acc).1 = true ↔
        calls.map (fun call => (call.reader, call.name)) =
            ReadConfig.named (steps.map (fun step => step.2)) ∧
          ∀ call ∈ calls, call.result = true) ∧
      (∀ call ∈ calls.dropLast, call.result = true) ∧
      ReadConfig.Consulted readers acc.1 calls (ReadConfig.run steps acc).2.1 ∧
      ((ReadConfig.run steps acc).1 = false ↔ ∃ call ∈ calls, call.result = false) := by
  induction steps generalizing acc with
  | nil =>
    refine ⟨[], ?_, ?_, ?_, ?_, ?_, ?_⟩
    · simp [ReadConfig.run]
    · simp [ReadConfig.named]
    · simp [ReadConfig.run, ReadConfig.named]
    · simp
    · simp [ReadConfig.run, ReadConfig.Consulted]
    · simp [ReadConfig.run]
  | cons step rest ih =>
    have hrest : ∀ step ∈ rest, step.1 = readers.get step.2.1 :=
      fun e he => hsteps e (List.mem_cons_of_mem _ he)
    have hstep := hsteps step (List.mem_cons_self _ _)
    obtain ⟨reader, which, name⟩ := step
    simp only at hstep
    by_cases hname : name = ""
    · subst hname
      obtain ⟨calls, h1, h2, h3, h4, h5, h6⟩ := ih hrest acc
      refine ⟨calls, ?_, ?_, ?_, h4, ?_, ?_⟩
      · simpa [ReadConfig.run, ReadConfig.failed] using h1
      · simpa [ReadConfig.named] using h2
      · simpa [ReadConfig.run, ReadConfig.failed, ReadConfig.named] using h3
      · simpa [ReadConfig.run, ReadConfig.failed] using h5
      · simpa [ReadConfig.run, ReadConfig.failed] using h6
    · cases hres : (reader name acc.1).1 with
      | false =>
        refine ⟨[{ reader := which, name := name, result := false }], ?_, ?_, ?_, ?_, ?_, ?_⟩
        · simp [ReadConfig.run, ReadConfig.failed, hname, hres]
        · simp [ReadConfig.named, hname]
        · simp [ReadConfig.run, ReadConfig.failed, hname, hres]
        · simp
        · simp [ReadConfig.run, ReadConfig.failed, ReadConfig.Consulted, hname, hres,
            ← hstep]
        · simp [ReadConfig.run, ReadConfig.failed, hname, hres]
      | true =>
        obtain ⟨calls, h1, h2, h3, h4, h5, h6⟩ := ih hrest ((reader name acc.1).2,
          acc.2 ++ [{ reader := which, name := name, result := true }])
        refine ⟨{ reader := which, name := name, result := true } :: calls,
          ?_, ?_, ?_, ?_, ?_, ?_⟩
        · simpa [ReadConfig.run, ReadConfig.failed, hname, hres] using h1
        · simpa [ReadConfig.named, hname, List.cons_prefix_cons] using h2
        · simpa [ReadConfig.run, ReadConfig.failed, ReadConfig.named, hname, hres] using h3
        · intro call hcall
          cases calls with
          | nil => simp at hcall
          | cons c cs =>
            rw [List.dropLast_cons₂, List.mem_cons] at hcall
            rcases hcall with h | h
            · rw [h]
            · exact h4 call h
        · simpa [ReadConfig.run, ReadConfig.failed, ReadConfig.Consulted, hname, hres,
            ← hstep] using h5
        · simpa [ReadConfig.run, ReadConfig.failed, hname, hres] using h6

theorem ReDefine.ReadConfig_sample :
    ((ReDefine.ReadConfig Sample.readers Sample.weaponConfig "Defines" "Variable" "Function"
        "Raw").1 = false ∧
      (ReDefine.ReadConfig Sample.readers Sample.weaponConfig "Defines" "Variable" "Function"
        "Raw").2.2 =
        [{ reader := ConfigReader.Defines, name := "Defines", result := true },
         { reader := ConfigReader.Variables, name := "Variable", result := false }]) ∧
      ((ReDefine.ReadConfig Sample.readers Sample.weaponConfig "Defines" "" "Function"
        "").1 = true ∧
      (ReDefine.ReadConfig Sample.readers Sample.weaponConfig "Defines" "" "Function"
        "").2.2 =
        [{ reader := ConfigReader.Defines, name := "Defines", result := true },
         { reader := ConfigReader.Functions, name := "Function", result := true }]) := by
  decide

/-- C18: the invocations `ReadConfig` makes are runs of the section readers, each in the
state the ones before it left, and the state `ReadConfig` leaves is the state the last of
them left.  `ReadConfig` returns true if and only if the readers it invoked are exactly
the readers with a non-empty section name and each of them returned true, and returns
false if and only if a reader it invoked returned false; the invocations are, in the
order defines, variables, functions, raw, an initial part of the readers with a non-empty
name (so a reader with an empty name is not invoked), every invocation but the last
returned true (so no reader is invoked after one that failed), and with four empty names
`ReadConfig` returns true and invokes no reader. -/
theorem C18_ReadConfig_short_circuit (readers : ConfigReaders) (self : ReDefine)
    (defines variablePrefix functionPrefix raw : String) :
    ReadConfig.Consulted readers self
        (ReDefine.ReadConfig readers self defines variablePrefix functionPrefix raw).2.2
        (ReDefine.ReadConfig readers self defines variablePrefix functionPrefix raw).2.1 ∧
      ((ReDefine.ReadConfig readers self defines variablePrefix functionPrefix raw).1 = true ↔
        (ReDefine.ReadConfig readers self defines variablePrefix functionPrefix raw).2.2.map
            (fun call => (call.reader, call.name)) =
          [(ConfigReader.Defines, defines), (ConfigReader.Variables, variablePrefix),
           (ConfigReader.Functions, functionPrefix), (ConfigReader.Raw, raw)].filter
            (fun e => decide (e.2 ≠ "")) ∧
        ∀ call ∈ (ReDefine.ReadConfig readers self defines variablePrefix functionPrefix
          raw).2.2, call.result = true) ∧
      ((ReDefine.ReadConfig readers self defines variablePrefix functionPrefix raw).1 = false ↔
        ∃ call ∈ (ReDefine.ReadConfig readers self defines variablePrefix functionPrefix
          raw).2.2, call.result = false) ∧
      (ReDefine.ReadConfig readers self defines variablePrefix functionPrefix raw).2.2.map
          (fun call => (call.reader, call.name)) <+:
        [(ConfigReader.Defines, defines), (ConfigReader.Variables, variablePrefix),
         (ConfigReader.Functions, functionPrefix), (ConfigReader.Raw, raw)].filter
          (fun e => decide (e.2 ≠ "")) ∧
      (∀ call ∈ (ReDefine.ReadConfig readers self defines variablePrefix functionPrefix
          raw).2.2.dropLast, call.result = true) ∧
      ReDefine.ReadConfig readers self "" "" "" "" = (true, self, []) := by
  obtain ⟨calls, h1, h2, h3, h4, h5, h6⟩ := ReadConfig.run_spec readers
    [(readers.ReadConfigDefines, ConfigReader.Defines, defines),
     (readers.ReadConfigVariables, ConfigReader.Variables, variablePrefix),
     (readers.ReadConfigFunctions, ConfigReader.Functions, functionPrefix),
     (readers.ReadConfigRaw, ConfigReader.Raw, raw)]
    (by simp [ConfigReaders.get]) (self, [])
  rw [← ReDefine.ReadConfig_eq_run] at h1 h3 h5 h6
  rw [List.nil_append] at h1
  rw [h1]
  refine ⟨h5, h3, h6, h2, h4, ?_⟩
  simp [ReDefine.ReadConfig, ReadConfig.failed]

/-! ## Claims about `ReadFile` -/

theorem ReadFile.splitLines_no_lf (u l : List Char) (hl : l ∈ ReadFile.splitLines u) :
    Char.ofNat 10 ∉ l := by
  induction u generalizing l with
  | nil =>
    rw [ReadFile.splitLines, List.mem_singleton] at hl
    rw [hl]
    exact List.not_mem_nil _
  | cons c rest ih =>
    by_cases hc : c = Char.ofNat 10
    · subst hc
      rw [ReadFile.splitLines_lf, List.mem_cons] at hl
      rcases hl with h | h
      · rw [h]; exact List.not_mem_nil _
      · exact ih l h
    · rw [ReadFile.splitLines_cons c rest hc, List.mem_cons] at hl
      rcases hl with h | h
      · rw [h]
        intro hmem
        rcases List.mem_cons.1 hmem with e | e
        · exact hc e.symm
        · cases hs : ReadFile.splitLines rest with
          | nil => rw [hs] at e; exact absurd e (List.not_mem_nil _)
          | cons first others =>
            rw [hs] at e
            exact ih first (by rw [hs]; exact List.mem_cons_self _ _) e
      · exact ih l (List.mem_of_mem_tail h)

theorem ReadFile.linesOf_no_cr_lf (content : List Char) (line : String)
    (hline : line ∈ ReadFile.linesOf content) :
    Char.ofNat 13 ∉ line.data ∧ Char.ofNat 10 ∉ line.data := by
  unfold ReadFile.linesOf at hline
  rw [List.mem_map] at hline
  obtain ⟨l, hl, rfl⟩ := hline
  constructor
  · intro h
    simp [List.mem_filter] at h
  · intro h
    exact ReadFile.splitLines_no_lf _ l hl (List.mem_of_mem_filter h)

theorem ReDefine.ReadFile_weapons :
    ReDefine.ReadFile Sample.files 10 "weapons.h" ["stale"] =
      some (true, ["#define WEAPON_TYPE_KNIFE 3", "#define WEAPON_TYPE_CLUB 4"], []) := by
  decide

/-- C11, evaluated on the code: for a file that cannot be opened `ReadFile` returns false
with an empty vector, whatever the vector held, and makes one WARNING call that names the
file; but for the file `empty.h`, which can be opened and has no character, `ReadFile`
has not returned after any number of tests of its loop condition. -/
theorem C11_unreadable_file_and_empty_file :
    (∀ (files : String → Option (List Char)) (fuel : Nat) (filename : String)
        (prior : List String), files filename = none →
        ReDefine.ReadFile files fuel filename prior =
          some (false, [],
            [{ severity := Severity.WARNING, function := none,
               format := "cannot read file<%s>", args := [FormatArg.str filename] }])) ∧
      Sample.files "empty.h" = some [] ∧
      ∀ (fuel : Nat) (prior : List String),
        ReDefine.ReadFile Sample.files fuel "empty.h" prior = none :=
  ⟨fun files fuel filename prior hopen =>
      ReDefine.ReadFile_unopened files fuel filename prior hopen,
    by decide,
    fun fuel prior =>
      ReDefine.ReadFile_short Sample.files fuel "empty.h" prior [] (by decide) (by decide)⟩

/-- C12, evaluated on the code: a file of three characters or more is read as its lines
(the characters after a leading byte-order mark, split at each LF, every CR removed; no
line has a CR or an LF); but for the file `short.h`, whose two characters `ab` should be
read as the one line `ab`, `ReadFile` has not returned after any number of tests of its
loop condition. -/
theorem C12_short_file_never_returns :
    (∀ (files : String → Option (List Char)) (filename : String) (prior : List String)
        (content : List Char), files filename = some content → 3 ≤ content.length →
        ReDefine.ReadFile files (content.length + 2) filename prior =
            some (true, ReadFile.linesOf content, []) ∧
          ∀ line ∈ ReadFile.linesOf content,
            Char.ofNat 13 ∉ line.data ∧ Char.ofNat 10 ∉ line.data) ∧
      Sample.files "short.h" = some ['a', 'b'] ∧
      ReadFile.linesOf ['a', 'b'] = ["ab"] ∧
      ∀ (fuel : Nat) (prior : List String),
        ReDefine.ReadFile Sample.files fuel "short.h" prior = none :=
  ⟨fun files filename prior content hopen hlong =>
      ⟨ReDefine.ReadFile_of_three files filename prior content hopen hlong,
        fun line hline => ReadFile.linesOf_no_cr_lf content line hline⟩,
    by decide, by decide,
    fun fuel prior =>
      ReDefine.ReadFile_short Sample.files fuel "short.h" prior ['a', 'b'] (by decide)
        (by decide)⟩

end Fo1in2
